import Mathlib

/-!
# framework-cron: scheduler facade, fire callback, trace wrapper, options

A shallow embedding of `cron.go`, `trace.go`, `options.go` and `types.go`.

* Go values that can be nil (`error`, `*Config`, `*Options`, `*TaskInfo`) are `Option`s.
* The registry `map[cron.EntryID]*TaskInfo` is a finite map with unique keys (`AList`);
  updating a record through its pointer is re-binding the record under its key.
* The trigger engine (`robfig/cron/v3`), the clock and `time.LoadLocation` are not part of
  the repository: they are parameters (`Engine`, `FireInput`, `loadLocation`).
* Logging and tracing calls are recorded, in program order, as a list of `Event`s.
* The counters `RunCount`/`ErrorCount` are `int64` fields: integers kept in
  `[-2^63, 2^63)` by `wrap64` at every increment, as `++` does in Go.
* A call that dereferences a nil pointer panics: `Outcome.panic`.
* Every operation runs to completion before the next one starts: interleavings of the
  locked sections of concurrent calls are not modelled.
-/

namespace Cron

/-! ## Basic types -/

/-- Handle of one registration: robfig `cron.EntryID`, a Go `int`. -/
abbrev EntryID := Int

/-- An instant (`time.Time`); `0` is the zero value. -/
abbrev Time := Nat

/-- A `time.Duration`, in nanoseconds. -/
abbrev Duration := Int

/-- A non-nil Go `error`; a Go `error` is an `Option GoError`, `none` being nil. -/
abbrev GoError := String

/-- Ambient state that the body of a task can observe when it runs. -/
abbrev World := Nat

/-- A `*time.Location`, identified by its name. -/
structure Location where
  name : String
deriving DecidableEq, Repr

/-- The zone `time.Local`. -/
def timeLocal : Location := ⟨"Local"⟩

/-- A `context.Context`: the background context, or one that carries a span. -/
inductive Ctx where
  | background : Ctx
  | withSpan (parent : Ctx) (name : String) (attrs : List (String × String)) : Ctx
deriving DecidableEq, Repr

/-! ## types.go -/

/-- The `Task` interface: `Name() string` and `Run(ctx) error`. -/
structure Task where
  Name : String
  Run : Ctx → World → Option GoError

/-- `TaskFunc`: a bare function as a task, named "anonymous". -/
def TaskFunc (f : Ctx → World → Option GoError) : Task :=
  { Name := "anonymous", Run := f }

/-- `NewNamedTask(name, fn)`. -/
def NewNamedTask (name : String) (fn : Ctx → World → Option GoError) : Task :=
  { Name := name, Run := fn }

/-- The value of an `int64` after an arithmetic result `x`: two's complement wrap-around
into `[-2^63, 2^63)`. -/
def wrap64 (x : Int) : Int :=
  (x + 9223372036854775808) % 18446744073709551616 - 9223372036854775808

/-- The record `TaskInfo`. The `int64` fields `RunCount` and `ErrorCount` hold integers
that every increment wraps with `wrap64`. -/
structure TaskInfo where
  ID : EntryID
  Name : String
  Spec : String
  Task : Task
  LastRun : Time := 0
  NextRun : Time := 0
  RunCount : Int := 0
  ErrorCount : Int := 0
  LastError : Option GoError := none

/-! ## options.go -/

/-- The struct `Config`. -/
structure Config where
  Enabled : Bool
  Location : String
  EnableTrace : Bool
deriving DecidableEq, Repr

/-- The struct `Options`. -/
structure Options where
  Location : Location
  EnableTrace : Bool
deriving DecidableEq, Repr

/-- `(*Config).Validate`: only the nil receiver is an error. -/
def Validate (c : Option Config) : Option GoError :=
  match c with
  | none => some "cron config cannot be nil"
  | some c => if !c.Enabled then none else none

/-- How a Go call ends: it panics, or it returns. -/
inductive Outcome (α : Type) where
  | panic : Outcome α
  | returned (a : α) : Outcome α

/-- `(*Config).ToOptions`, with `time.LoadLocation` as a parameter. After `Validate` the
receiver is read (`c.Enabled`), which panics on a nil receiver. -/
def ToOptions (loadLocation : String → Except GoError Location) (c : Option Config) :
    Outcome (Except GoError Options) :=
  match Validate c with
  | some err => .returned (.error err)
  | none =>
    match c with
    | none => .panic
    | some c =>
      if !c.Enabled then .returned (.error "cron is not enabled")
      else if c.Location != "" && c.Location != "Local" then
        match loadLocation c.Location with
        | .error err => .returned (.error ("invalid location: " ++ err))
        | .ok location =>
          .returned (.ok { Location := location, EnableTrace := c.EnableTrace })
      else .returned (.ok { Location := timeLocal, EnableTrace := c.EnableTrace })

/-- `DefaultOptions()`. -/
def DefaultOptions : Options :=
  { Location := timeLocal, EnableTrace := true }

/-! ## The trigger engine (robfig/cron), as an interface -/

/-- The operations of `*cron.Cron` that the scheduler calls, over an engine state `E`.
`AddFunc` returns Go's pair `(EntryID, error)` and the engine afterwards; `EntryNext c id`
is `c.Entry(id).Next`; `EntryIDs c` lists the handles of `c.Entries()`. -/
structure Engine (E : Type) where
  New : Location → E
  AddFunc : E → String → (EntryID × Option GoError) × E
  Remove : E → EntryID → E
  EntryNext : E → EntryID → Time
  EntryIDs : E → List EntryID

/-! ## cron.go: the scheduler -/

/-- The registry `map[cron.EntryID]*TaskInfo`. -/
abbrev Registry := AList (fun _ : EntryID => TaskInfo)

/-- Apply `f` to every record of the registry, keys untouched. -/
def Registry.mapValues (f : TaskInfo → TaskInfo) (m : Registry) : Registry :=
  ⟨m.entries.map (fun e => ⟨e.1, f e.2⟩), by
    have h : (m.entries.map (fun e => (⟨e.1, f e.2⟩ : (_ : EntryID) × TaskInfo))).keys
        = m.entries.keys := by
      simp [List.keys, List.map_map, Function.comp_def]
    unfold List.NodupKeys
    rw [h]
    exact m.nodupKeys⟩

/-- The records of the registry, one per key. -/
def Registry.values (m : Registry) : List TaskInfo :=
  m.entries.map (fun e => e.2)

/-- The struct `Scheduler` (the lock is not modelled: every operation runs to completion). -/
structure Scheduler (E : Type) where
  cron : E
  tasks : Registry
  opts : Options

variable {E : Type}

/-- `NewScheduler(opts)`: nil options are replaced by the defaults. -/
def NewScheduler (eng : Engine E) (opts : Option Options) : Scheduler E :=
  let opts := match opts with
    | none => DefaultOptions
    | some o => o
  { cron := eng.New opts.Location, tasks := ∅, opts := opts }

/-- `(*Scheduler).AddTask`: the returned pair `(handle, error)` and the scheduler afterwards. -/
def AddTask (eng : Engine E) (s : Scheduler E) (spec : String) (task : Task) :
    (EntryID × Option GoError) × Scheduler E :=
  match eng.AddFunc s.cron spec with
  | ((_, some err), c) => ((0, some err), { s with cron := c })
  | ((id, none), c) =>
    let entryNext := eng.EntryNext c id
    ((id, none),
     { s with
       cron := c
       tasks := s.tasks.insert id
         { ID := id, Name := task.Name, Spec := spec, Task := task, NextRun := entryNext } })

/-- `(*Scheduler).RemoveTask`. -/
def RemoveTask (eng : Engine E) (s : Scheduler E) (id : EntryID) : Scheduler E :=
  { s with cron := eng.Remove s.cron id, tasks := s.tasks.erase id }

/-- `(*Scheduler).GetTaskInfo`. -/
def GetTaskInfo (s : Scheduler E) (id : EntryID) : Option TaskInfo :=
  s.tasks.lookup id

/-- `(*Scheduler).GetAllTasks`: every record gets its `NextRun` refreshed in place from
`s.cron.Entry(info.ID).Next` and is appended to the result. -/
def GetAllTasks (eng : Engine E) (s : Scheduler E) : List TaskInfo × Scheduler E :=
  let tasks := s.tasks.mapValues
    (fun info => { info with NextRun := eng.EntryNext s.cron info.ID })
  (tasks.values, { s with tasks := tasks })

/-! ## trace.go and the fire callback -/

/-- Span status codes (`codes.Error`, `codes.Ok`). -/
inductive Code where
  | Error : Code
  | Ok : Code
deriving DecidableEq, Repr

/-- What one fire does to the outside, in program order. -/
inductive Event where
  /-- First locked section of the callback: `LastRun` set, `RunCount` incremented. -/
  | registryStart (id : EntryID) (startTime : Time) : Event
  /-- `pkgtrace.StartSpan(ctx, name, attributes)`. -/
  | spanStart (name : String) (attrs : List (String × String)) : Event
  /-- The call `task.Run(ctx)`. -/
  | taskRun (ctx : Ctx) : Event
  /-- A log record at error severity. -/
  | logError (ctx : Ctx) (msg task : String) (duration : Duration) (err : GoError) : Event
  /-- A log record at info severity. -/
  | logInfo (ctx : Ctx) (msg task : String) (duration : Duration) : Event
  /-- `span.SetAttributes` with the duration in milliseconds. -/
  | spanSetAttributes (key : String) (ms : Int) : Event
  /-- `span.SetStatus(code, description)`. -/
  | spanSetStatus (code : Code) (description : String) : Event
  /-- `span.RecordError(err)`. -/
  | spanRecordError (err : GoError) : Event
  /-- `span.End()`. -/
  | spanEnd : Event
  /-- Second locked section of the callback: `NextRun` and the error bookkeeping. -/
  | registryFinish (id : EntryID) (nextRun : Time) (err : Option GoError) : Event
deriving DecidableEq, Repr

/-- The clock readings and the ambient state of one fire. -/
structure FireInput where
  /-- `time.Now()` at the start of the callback. -/
  startTime : Time
  /-- `time.Now()` at the start of `runTaskWithTrace`. -/
  traceStart : Time
  /-- What the task body observes. -/
  world : World
  /-- The instant of `time.Since` inside `runTaskWithTrace`. -/
  traceEnd : Time
  /-- The instant of `time.Since` in the callback. -/
  endTime : Time
deriving DecidableEq, Repr

/-- `time.Since(start)` evaluated at the instant `now`. -/
def since (now start : Time) : Duration := (now : Int) - (start : Int)

/-- `Duration.Milliseconds()`. -/
def Milliseconds (d : Duration) : Int := Int.tdiv d 1000000

/-- `runTaskWithTrace(ctx, task, handler)`: the returned error and the events.
The deferred `span.End()` runs last. -/
def runTaskWithTrace (ctx : Ctx) (task : Task)
    (handler : Ctx → Option GoError × List Event) (startTime now : Time) :
    Option GoError × List Event :=
  let attrs := [("cron.task.name", task.Name)]
  let ctx := Ctx.withSpan ctx "cron.task" attrs
  let (err, evHandler) := handler ctx
  let duration := since now startTime
  let evLog := match err with
    | some e => [Event.logError ctx "Cron task failed" task.Name duration e]
    | none => [Event.logInfo ctx "Cron task completed" task.Name duration]
  let evStatus := match err with
    | some e => [Event.spanSetStatus Code.Error e, Event.spanRecordError e]
    | none => [Event.spanSetStatus Code.Ok ""]
  (err,
   [Event.spanStart "cron.task" attrs] ++ evHandler ++ evLog
     ++ [Event.spanSetAttributes "cron.duration_ms" (Milliseconds duration)]
     ++ evStatus ++ [Event.spanEnd])

/-- What the first locked section does to the record. -/
def TaskInfo.started (info : TaskInfo) (startTime : Time) : TaskInfo :=
  { info with LastRun := startTime, RunCount := wrap64 (info.RunCount + 1) }

/-- What the second locked section does to the record. -/
def TaskInfo.finished (info : TaskInfo) (next : Time) (err : Option GoError) : TaskInfo :=
  let info := { info with NextRun := next }
  match err with
  | some e => { info with ErrorCount := wrap64 (info.ErrorCount + 1), LastError := some e }
  | none => info

/-- The callback that `AddTask` hands to the engine, for the captured `taskID` and `task`,
run to completion: the scheduler afterwards and the events. -/
def fire (eng : Engine E) (s : Scheduler E) (taskID : EntryID) (task : Task)
    (inp : FireInput) : Scheduler E × List Event :=
  let ctx := Ctx.background
  let startTime := inp.startTime
  let info := s.tasks.lookup taskID
  let (tasks1, ev1) := match info with
    | some r => (s.tasks.insert taskID (r.started startTime),
                 [Event.registryStart taskID startTime])
    | none => (s.tasks, [])
  let (err, ev2) :=
    if s.opts.EnableTrace then
      runTaskWithTrace ctx task (fun ctx => (task.Run ctx inp.world, [Event.taskRun ctx]))
        inp.traceStart inp.traceEnd
    else (task.Run ctx inp.world, [Event.taskRun ctx])
  let duration := since inp.endTime startTime
  let (tasks2, ev3) := match info with
    | some r =>
      let next := eng.EntryNext s.cron taskID
      (tasks1.insert taskID ((r.started startTime).finished next err),
       [Event.registryFinish taskID next err,
        match err with
        | some e => Event.logError ctx "Cron task failed" task.Name duration e
        | none => Event.logInfo ctx "Cron task completed" task.Name duration])
    | none => (tasks1, [])
  ({ s with tasks := tasks2 }, ev1 ++ ev2 ++ ev3)

/-- The context in which the callback calls `task.Run`. -/
def runCtx (opts : Options) (task : Task) : Ctx :=
  if opts.EnableTrace then
    Ctx.withSpan Ctx.background "cron.task" [("cron.task.name", task.Name)]
  else Ctx.background

/-! ## Sequences of completed operations -/

/-- One completed operation on the scheduler: a call of `AddTask`, `RemoveTask` or
`GetAllTasks`, one fire of a callback (with its captured handle and task), or a step of
the engine by itself (its dispatch loop moving to a new engine state). -/
inductive Op (E : Type) where
  | add (spec : String) (task : Task) : Op E
  | remove (id : EntryID) : Op E
  | fire (taskID : EntryID) (task : Task) (inp : FireInput) : Op E
  | getAll : Op E
  | engine (c : E) : Op E

/-- The scheduler after one operation. -/
def step (eng : Engine E) (s : Scheduler E) : Op E → Scheduler E
  | .add spec task => (AddTask eng s spec task).2
  | .remove id => RemoveTask eng s id
  | .fire taskID task inp => (fire eng s taskID task inp).1
  | .getAll => (GetAllTasks eng s).2
  | .engine c => { s with cron := c }

/-- The scheduler after a sequence of operations, one after the other. -/
def run (eng : Engine E) (s : Scheduler E) : List (Op E) → Scheduler E
  | [] => s
  | op :: ops => run eng (step eng s op) ops

/-- The inputs of the fires of handle `id` in a sequence of operations, in order. -/
def firesOf (id : EntryID) : List (Op E) → List FireInput
  | [] => []
  | .fire taskID _ inp :: ops =>
    if taskID = id then inp :: firesOf id ops else firesOf id ops
  | _ :: ops => firesOf id ops

/-- Those of the inputs on which `task.Run`, called by the callback, returns an error. -/
def failed (opts : Options) (task : Task) (inps : List FireInput) : List FireInput :=
  inps.filter (fun inp => (task.Run (runCtx opts task) inp.world).isSome)

/-- The field `LastError` after the runs on `inps`, one after the other, when it was `d`
before: a failing run stores its error, a successful run leaves the field. -/
def lastErrorAfter (opts : Options) (task : Task) (d : Option GoError)
    (inps : List FireInput) : Option GoError :=
  inps.foldl
    (fun d inp =>
      match task.Run (runCtx opts task) inp.world with
      | some e => some e
      | none => d) d

/-- The operation leaves the registration of `task` under `id` in place: it does not
remove `id`, the engine does not hand out `id` again, and a callback that fires with
handle `id` is the one of `task`. -/
def Op.keeps (eng : Engine E) (id : EntryID) (task : Task) (s : Scheduler E) :
    Op E → Prop
  | .add spec _ => (eng.AddFunc s.cron spec).1.2 = none → (eng.AddFunc s.cron spec).1.1 ≠ id
  | .remove k => k ≠ id
  | .fire taskID t _ => taskID = id → t = task
  | .getAll => True
  | .engine _ => True

/-- Every operation of the sequence, run from `s`, keeps the registration of `task`
under `id`. -/
def Keeps (eng : Engine E) (id : EntryID) (task : Task) :
    Scheduler E → List (Op E) → Prop
  | _, [] => True
  | s, op :: ops => op.keeps eng id task s ∧ Keeps eng id task (step eng s op) ops

/-- The value is one an `int64` can hold. -/
def InInt64 (x : Int) : Prop :=
  -9223372036854775808 ≤ x ∧ x < 9223372036854775808

instance (x : Int) : Decidable (InInt64 x) := by
  unfold InInt64; infer_instance

/-! ## Event predicates -/

/-- A log record, of either severity. -/
def Event.isLog : Event → Bool
  | .logError .. => true
  | .logInfo .. => true
  | _ => false

/-- A log record at error severity. -/
def Event.isLogError : Event → Bool
  | .logError .. => true
  | _ => false

/-- A log record at info severity. -/
def Event.isLogInfo : Event → Bool
  | .logInfo .. => true
  | _ => false

/-- The opening of a span. -/
def Event.isSpanStart : Event → Bool
  | .spanStart .. => true
  | _ => false

/-- The closing of a span. -/
def Event.isSpanEnd : Event → Bool
  | .spanEnd => true
  | _ => false

/-- The call of the task body. -/
def Event.isTaskRun : Event → Bool
  | .taskRun .. => true
  | _ => false

/-- The first registry update. -/
def Event.isRegistryStart : Event → Bool
  | .registryStart .. => true
  | _ => false

/-- The second registry update. -/
def Event.isRegistryFinish : Event → Bool
  | .registryFinish .. => true
  | _ => false

/-- The setting of the duration attribute. -/
def Event.isSetAttributes : Event → Bool
  | .spanSetAttributes .. => true
  | _ => false

/-- The setting of the span status. -/
def Event.isSetStatus : Event → Bool
  | .spanSetStatus .. => true
  | _ => false

/-- A log record emitted with a context that carries a span (the record of the wrapper). -/
def Event.isSpanLog : Event → Bool
  | .logError (.withSpan ..) .. => true
  | .logInfo (.withSpan ..) .. => true
  | _ => false

/-- In the event list `l`, every `p`-event comes strictly before every `q`-event: no
`q`-event is followed by a `p`-event, and no event is both. -/
def Before (p q : Event → Bool) (l : List Event) : Prop :=
  l.Pairwise (fun a b => ¬ (q a = true ∧ p b = true)) ∧ ∀ x ∈ l, ¬ (p x = true ∧ q x = true)

instance (p q : Event → Bool) (l : List Event) : Decidable (Before p q l) := by
  unfold Before; infer_instance

/-- The event list `l` has exactly one `p`-event. -/
def Once (p : Event → Bool) (l : List Event) : Prop := l.countP p = 1

instance (p : Event → Bool) (l : List Event) : Decidable (Once p l) := by
  unfold Once; infer_instance

/-! ## Reachable states and invariants -/

/-- What the scheduler relies on from the engine about its set of entries: a new engine has
none, an accepted `AddFunc` adds exactly the returned handle, a rejected one adds nothing,
and `Remove` removes exactly the given handle. -/
structure Engine.Lawful (eng : Engine E) : Prop where
  new_entries : ∀ loc k, k ∉ eng.EntryIDs (eng.New loc)
  add_ok : ∀ c spec, (eng.AddFunc c spec).1.2 = none →
    ∀ k, k ∈ eng.EntryIDs (eng.AddFunc c spec).2 ↔
      k = (eng.AddFunc c spec).1.1 ∨ k ∈ eng.EntryIDs c
  add_err : ∀ c spec, (eng.AddFunc c spec).1.2 ≠ none →
    ∀ k, k ∈ eng.EntryIDs (eng.AddFunc c spec).2 ↔ k ∈ eng.EntryIDs c
  remove : ∀ c id k, k ∈ eng.EntryIDs (eng.Remove c id) ↔ k ∈ eng.EntryIDs c ∧ k ≠ id

/-- The states a scheduler goes through: created by `NewScheduler`, then any sequence of
completed `AddTask`, `RemoveTask`, `GetAllTasks` calls and completed fires; the engine may
also move on by itself (its dispatch loop recomputes fire times) with the same entries. -/
inductive Reachable (eng : Engine E) : Scheduler E → Prop where
  | new (opts : Option Options) : Reachable eng (NewScheduler eng opts)
  | addTask {s : Scheduler E} (spec : String) (task : Task) :
      Reachable eng s → Reachable eng (AddTask eng s spec task).2
  | removeTask {s : Scheduler E} (id : EntryID) :
      Reachable eng s → Reachable eng (RemoveTask eng s id)
  | fire {s : Scheduler E} (taskID : EntryID) (task : Task) (inp : FireInput) :
      Reachable eng s → Reachable eng (fire eng s taskID task inp).1
  | getAllTasks {s : Scheduler E} :
      Reachable eng s → Reachable eng (GetAllTasks eng s).2
  | engineStep {s : Scheduler E} (c : E) :
      Reachable eng s → (∀ k, k ∈ eng.EntryIDs c ↔ k ∈ eng.EntryIDs s.cron) →
      Reachable eng { s with cron := c }

/-- Every record of the registry is stored under its own `ID`. -/
def KeyedByID (s : Scheduler E) : Prop :=
  ∀ k r, GetTaskInfo s k = some r → r.ID = k

/-! ## A small engine, to run the scheduler on concrete inputs -/

/-- State of the small engine: the last handle handed out and the entries `(ID, Next)`. -/
structure RefCron where
  nextID : EntryID
  entries : List (EntryID × Time)
deriving DecidableEq, Repr

/-- The small engine: handles come from a counter, starting at 1; the empty spec is
rejected; the next fire time of an entry is fixed when it is added; an unknown handle has
the zero `Next`. -/
def refEngine : Engine RefCron where
  New := fun _ => { nextID := 0, entries := [] }
  AddFunc := fun c spec =>
    if spec.length = 0 then ((0, some "empty spec string"), c)
    else ((c.nextID + 1, none),
          { nextID := c.nextID + 1, entries := c.entries ++ [(c.nextID + 1, 60 * spec.length)] })
  Remove := fun c id => { c with entries := c.entries.filter (fun e => e.1 ≠ id) }
  EntryNext := fun c id =>
    match c.entries.find? (fun e => e.1 = id) with
    | some e => e.2
    | none => 0
  EntryIDs := fun c => c.entries.map (fun e => e.1)

/-- A task that always succeeds. -/
def okTask : Task := NewNamedTask "ok" (fun _ _ => none)

/-- A task that always fails, with an error that tells the runs apart. -/
def failTask : Task :=
  NewNamedTask "fail" (fun _ w => some (String.mk (List.replicate w '!')))

/-- A task that fails exactly when the ambient state is odd. -/
def flakyTask : Task :=
  TaskFunc (fun _ w => if w % 2 = 1 then some "odd" else none)

/-- A scheduler with tracing enabled (the default options). -/
def tracedScheduler : Scheduler RefCron := NewScheduler refEngine none

/-- A scheduler with tracing disabled. -/
def plainScheduler : Scheduler RefCron :=
  NewScheduler refEngine (some { Location := timeLocal, EnableTrace := false })

/-- Clock readings of a fire that starts at 100 and takes 7 ms. -/
def sampleInput (w : World) : FireInput :=
  { startTime := 100, traceStart := 101, world := w, traceEnd := 7000101, endTime := 7000102 }

/-- The order of the steps of a traced fire as listed: first registry update before the
span opens, `Run` inside the span, second registry update and log emission before the
duration attribute, the status and the closing of the span. -/
def ListedOrder (l : List Event) : Prop :=
  Before Event.isRegistryStart Event.isSpanStart l ∧
  Before Event.isSpanStart Event.isTaskRun l ∧
  Before Event.isTaskRun Event.isSpanEnd l ∧
  Before Event.isRegistryFinish Event.isSetAttributes l ∧
  Before Event.isRegistryFinish Event.isSetStatus l ∧
  Before Event.isRegistryFinish Event.isSpanEnd l ∧
  Before Event.isLog Event.isSetAttributes l ∧
  Before Event.isLog Event.isSetStatus l ∧
  Before Event.isLog Event.isSpanEnd l

instance (l : List Event) : Decidable (ListedOrder l) := by
  unfold ListedOrder; infer_instance

/-- A timezone lookup that knows two names. -/
def sampleLoadLocation (name : String) : Except GoError Location :=
  if name = "UTC" ∨ name = "Asia/Shanghai" then .ok ⟨name⟩
  else .error ("unknown time zone " ++ name)

/-! ## Registry lemmas -/

theorem Registry.lookup_mapValues (f : TaskInfo → TaskInfo) (m : Registry) (k : EntryID) :
    (m.mapValues f).lookup k = (m.lookup k).map f := by
  unfold Registry.mapValues AList.lookup
  exact List.dlookup_map₂ (f := fun _ => f) k

theorem Registry.keys_mapValues (f : TaskInfo → TaskInfo) (m : Registry) :
    (m.mapValues f).keys = m.keys := by
  simp [Registry.mapValues, AList.keys, List.keys, List.map_map, Function.comp_def]

theorem Registry.mem_values_iff (m : Registry) (r : TaskInfo) :
    r ∈ m.values ↔ ∃ k, m.lookup k = some r := by
  unfold Registry.values
  constructor
  · intro h
    obtain ⟨e, he, rfl⟩ := List.mem_map.1 h
    exact ⟨e.1, by
      have := (AList.mem_lookup_iff (a := e.1) (b := e.2) (s := m)).2 he
      simpa using this⟩
  · rintro ⟨k, hk⟩
    have : (⟨k, r⟩ : (_ : EntryID) × TaskInfo) ∈ m.entries :=
      (AList.mem_lookup_iff (a := k) (b := r) (s := m)).1 (by simpa using hk)
    exact List.mem_map.2 ⟨⟨k, r⟩, this, rfl⟩

theorem Registry.length_values (m : Registry) : m.values.length = m.keys.length := by
  simp [Registry.values, AList.keys, List.keys]

theorem Registry.erase_of_lookup_none (m : Registry) (k : EntryID)
    (h : m.lookup k = none) : m.erase k = m := by
  apply AList.ext
  have hk : k ∉ m.entries.keys := by
    have := AList.lookup_eq_none.1 h
    simpa [AList.mem_keys, AList.keys] using this
  simpa [AList.erase] using List.kerase_of_not_mem_keys hk

/-! ## AddTask, RemoveTask, GetTaskInfo -/

theorem addTask_of_error (eng : Engine E) (s : Scheduler E) (spec : String) (task : Task)
    (err : GoError) (h : (eng.AddFunc s.cron spec).1.2 = some err) :
    AddTask eng s spec task
      = ((0, some err), { s with cron := (eng.AddFunc s.cron spec).2 }) := by
  unfold AddTask
  rcases hA : eng.AddFunc s.cron spec with ⟨⟨id, e⟩, c⟩
  rw [hA] at h
  simp only at h
  subst h
  rfl

theorem addTask_of_ok (eng : Engine E) (s : Scheduler E) (spec : String) (task : Task)
    (h : (eng.AddFunc s.cron spec).1.2 = none) :
    AddTask eng s spec task
      = (((eng.AddFunc s.cron spec).1.1, none),
         { s with
           cron := (eng.AddFunc s.cron spec).2
           tasks := s.tasks.insert (eng.AddFunc s.cron spec).1.1
             { ID := (eng.AddFunc s.cron spec).1.1, Name := task.Name, Spec := spec,
               Task := task,
               NextRun := eng.EntryNext (eng.AddFunc s.cron spec).2
                 (eng.AddFunc s.cron spec).1.1 } }) := by
  unfold AddTask
  rcases hA : eng.AddFunc s.cron spec with ⟨⟨id, e⟩, c⟩
  rw [hA] at h
  simp only at h
  subst h
  rfl

/-- C1: when the engine rejects the spec, `AddTask` returns handle 0 with the engine's
error, and the registry is the same map as before (same keys, same records). -/
theorem addTask_rejected_registry_unchanged (eng : Engine E) (s : Scheduler E)
    (spec : String) (task : Task) (err : GoError)
    (h : (eng.AddFunc s.cron spec).1.2 = some err) :
    (AddTask eng s spec task).1 = (0, some err) ∧
    (AddTask eng s spec task).2.tasks = s.tasks ∧
    (∀ k, GetTaskInfo (AddTask eng s spec task).2 k = GetTaskInfo s k) ∧
    (AddTask eng s spec task).2.tasks.keys = s.tasks.keys := by
  rw [addTask_of_error eng s spec task err h]
  exact ⟨rfl, rfl, fun _ => rfl, rfl⟩

theorem addTask_rejected_registry_unchanged_witness :
    (refEngine.AddFunc tracedScheduler.cron "").1.2 = some "empty spec string" ∧
    (AddTask refEngine tracedScheduler "" okTask).1 = (0, some "empty spec string") ∧
    (AddTask refEngine tracedScheduler "" okTask).2.tasks = tracedScheduler.tasks :=
  ⟨rfl,
   (addTask_rejected_registry_unchanged refEngine tracedScheduler "" okTask
     "empty spec string" rfl).1,
   (addTask_rejected_registry_unchanged refEngine tracedScheduler "" okTask
     "empty spec string" rfl).2.1⟩

theorem addTask_ok_record (eng : Engine E) (s : Scheduler E)
    (spec : String) (task : Task) (id : EntryID)
    (h : (eng.AddFunc s.cron spec).1 = (id, none)) :
    (AddTask eng s spec task).1 = (id, none) ∧
    GetTaskInfo (AddTask eng s spec task).2 id
      = some { ID := id, Name := task.Name, Spec := spec, Task := task, LastRun := 0,
               NextRun := eng.EntryNext (AddTask eng s spec task).2.cron id,
               RunCount := 0, ErrorCount := 0, LastError := none } ∧
    (∀ k, k ≠ id → GetTaskInfo (AddTask eng s spec task).2 k = GetTaskInfo s k) := by
  have h1 : (eng.AddFunc s.cron spec).1.1 = id := by rw [h]
  have h2 : (eng.AddFunc s.cron spec).1.2 = none := by rw [h]
  rw [addTask_of_ok eng s spec task h2, h1]
  refine ⟨rfl, ?_, ?_⟩
  · simp [GetTaskInfo, AList.lookup_insert]
  · intro k hk
    simp [GetTaskInfo, AList.lookup_insert_ne hk]

/-- C2: when the engine accepts the spec with handle `id`, `AddTask` returns `(id, nil)`,
`GetTaskInfo id` is the fresh record (name, spec and task as given, `NextRun` the engine's
next fire time of `id`, zero counters, zero `LastRun`, nil `LastError`), and the record
under every other handle is as before. -/
theorem addTask_accepted_inserts_record (eng : Engine E) (s : Scheduler E)
    (spec : String) (task : Task) (id : EntryID)
    (h : (eng.AddFunc s.cron spec).1 = (id, none)) :
    (AddTask eng s spec task).1 = (id, none) ∧
    (∃ r, GetTaskInfo (AddTask eng s spec task).2 id = some r ∧
      r.ID = id ∧ r.Name = task.Name ∧ r.Spec = spec ∧ r.Task = task ∧
      r.NextRun = eng.EntryNext (AddTask eng s spec task).2.cron id ∧
      r.RunCount = 0 ∧ r.ErrorCount = 0 ∧ r.LastRun = 0 ∧ r.LastError = none) ∧
    (∀ k, k ≠ id → GetTaskInfo (AddTask eng s spec task).2 k = GetTaskInfo s k) := by
  obtain ⟨h1, h2, h3⟩ := addTask_ok_record eng s spec task id h
  exact ⟨h1, ⟨_, h2, rfl, rfl, rfl, rfl, rfl, rfl, rfl, rfl, rfl⟩, h3⟩

theorem addTask_accepted_inserts_record_witness :
    (refEngine.AddFunc tracedScheduler.cron "* * * * * *").1 = (1, none) ∧
    (AddTask refEngine tracedScheduler "* * * * * *" okTask).1 = (1, none) ∧
    ∃ r, GetTaskInfo (AddTask refEngine tracedScheduler "* * * * * *" okTask).2 1 = some r ∧
      r.ID = 1 ∧ r.Name = "ok" ∧ r.Spec = "* * * * * *" ∧ r.Task = okTask ∧
      r.NextRun = 660 ∧ r.RunCount = 0 ∧ r.ErrorCount = 0 ∧ r.LastRun = 0 ∧
      r.LastError = none :=
  ⟨rfl,
   (addTask_accepted_inserts_record refEngine tracedScheduler "* * * * * *" okTask 1 rfl).1,
   (addTask_accepted_inserts_record refEngine tracedScheduler "* * * * * *" okTask 1 rfl).2.1⟩

theorem getAllTasks_ids (eng : Engine E) (s : Scheduler E) (r : TaskInfo)
    (h : r ∈ (GetAllTasks eng s).1) : ∃ k r₀, GetTaskInfo s k = some r₀ ∧
      r = { r₀ with NextRun := eng.EntryNext s.cron r₀.ID } := by
  obtain ⟨k, hk⟩ := (Registry.mem_values_iff _ r).1 h
  rw [Registry.lookup_mapValues] at hk
  cases h0 : s.tasks.lookup k with
  | none => rw [h0] at hk; simp at hk
  | some r₀ =>
    rw [h0] at hk
    simp only [Option.map_some', Option.some.injEq] at hk
    exact ⟨k, r₀, h0, hk.symm⟩

/-- C3: `RemoveTask id` always completes and deletes key `id` from the registry:
`GetTaskInfo id` is nil afterwards, records under other handles are as before, an
unregistered `id` leaves the registry as it was, a second removal changes nothing more, and
(records being stored under their own ID) `GetAllTasks` returns no record with that ID. -/
theorem removeTask_deletes_key (eng : Engine E) (s : Scheduler E) (id : EntryID) :
    (RemoveTask eng s id).tasks = s.tasks.erase id ∧
    GetTaskInfo (RemoveTask eng s id) id = none ∧
    (∀ k, k ≠ id → GetTaskInfo (RemoveTask eng s id) k = GetTaskInfo s k) ∧
    (GetTaskInfo s id = none → (RemoveTask eng s id).tasks = s.tasks) ∧
    (RemoveTask eng (RemoveTask eng s id) id).tasks = (RemoveTask eng s id).tasks ∧
    (KeyedByID s → ∀ r ∈ (GetAllTasks eng (RemoveTask eng s id)).1, r.ID ≠ id) := by
  refine ⟨rfl, ?_, ?_, ?_, ?_, ?_⟩
  · simp [GetTaskInfo, RemoveTask, AList.lookup_erase]
  · intro k hk
    simp [GetTaskInfo, RemoveTask, AList.lookup_erase_ne hk]
  · intro h
    exact Registry.erase_of_lookup_none s.tasks id h
  · exact Registry.erase_of_lookup_none _ id (AList.lookup_erase id s.tasks)
  · intro hwf r hr hid
    obtain ⟨k, r₀, hk, rfl⟩ := getAllTasks_ids eng _ r hr
    simp only at hid
    by_cases hkid : k = id
    · subst hkid
      simp [GetTaskInfo, RemoveTask, AList.lookup_erase] at hk
    · have hk' : GetTaskInfo s k = some r₀ := by
        simpa [GetTaskInfo, RemoveTask, AList.lookup_erase_ne hkid] using hk
      exact hkid ((hwf k r₀ hk').symm.trans hid)

/-! ## The fire callback -/

theorem fire_cron (eng : Engine E) (s : Scheduler E) (taskID : EntryID) (task : Task)
    (inp : FireInput) : (fire eng s taskID task inp).1.cron = s.cron := by
  unfold fire
  cases s.tasks.lookup taskID <;> cases s.opts.EnableTrace <;> rfl

theorem fire_opts (eng : Engine E) (s : Scheduler E) (taskID : EntryID) (task : Task)
    (inp : FireInput) : (fire eng s taskID task inp).1.opts = s.opts := by
  unfold fire
  cases s.tasks.lookup taskID <;> cases s.opts.EnableTrace <;> rfl

theorem fire_tasks_of_none (eng : Engine E) (s : Scheduler E) (taskID : EntryID)
    (task : Task) (inp : FireInput) (h : s.tasks.lookup taskID = none) :
    (fire eng s taskID task inp).1.tasks = s.tasks := by
  unfold fire
  rw [h]

theorem fire_tasks_of_some (eng : Engine E) (s : Scheduler E) (taskID : EntryID)
    (task : Task) (inp : FireInput) (r : TaskInfo) (h : s.tasks.lookup taskID = some r) :
    (fire eng s taskID task inp).1.tasks
      = s.tasks.insert taskID
          ((r.started inp.startTime).finished (eng.EntryNext s.cron taskID)
            (task.Run (runCtx s.opts task) inp.world)) := by
  unfold fire
  rw [h]
  cases hT : s.opts.EnableTrace <;>
    simp [runCtx, hT, runTaskWithTrace, AList.insert_insert]

theorem fire_lookup_self (eng : Engine E) (s : Scheduler E) (taskID : EntryID)
    (task : Task) (inp : FireInput) (r : TaskInfo) (h : GetTaskInfo s taskID = some r) :
    GetTaskInfo (fire eng s taskID task inp).1 taskID
      = some ((r.started inp.startTime).finished (eng.EntryNext s.cron taskID)
          (task.Run (runCtx s.opts task) inp.world)) := by
  unfold GetTaskInfo at h ⊢
  rw [fire_tasks_of_some eng s taskID task inp r h, AList.lookup_insert]

theorem fire_lookup_ne (eng : Engine E) (s : Scheduler E) (taskID : EntryID)
    (task : Task) (inp : FireInput) (k : EntryID) (hk : k ≠ taskID) :
    GetTaskInfo (fire eng s taskID task inp).1 k = GetTaskInfo s k := by
  unfold GetTaskInfo
  cases h : s.tasks.lookup taskID with
  | none => rw [fire_tasks_of_none eng s taskID task inp h]
  | some r => rw [fire_tasks_of_some eng s taskID task inp r h, AList.lookup_insert_ne hk]

theorem fire_mem_keys (eng : Engine E) (s : Scheduler E) (taskID : EntryID)
    (task : Task) (inp : FireInput) (k : EntryID) :
    k ∈ (fire eng s taskID task inp).1.tasks ↔ k ∈ s.tasks := by
  cases h : s.tasks.lookup taskID with
  | none => rw [fire_tasks_of_none eng s taskID task inp h]
  | some r =>
    rw [fire_tasks_of_some eng s taskID task inp r h, AList.mem_insert]
    constructor
    · rintro (rfl | h')
      · exact AList.lookup_isSome.1 (by rw [h]; rfl)
      · exact h'
    · exact fun h' => Or.inr h'

theorem finished_ID (r : TaskInfo) (next : Time) (err : Option GoError) :
    (r.finished next err).ID = r.ID := by
  cases err <;> rfl

theorem finished_RunCount (r : TaskInfo) (next : Time) (err : Option GoError) :
    (r.finished next err).RunCount = r.RunCount := by
  cases err <;> rfl

/-! ## Invariants of the reachable states -/

theorem addTask_cases (eng : Engine E) (s : Scheduler E) (spec : String) (task : Task) :
    (∃ err, (eng.AddFunc s.cron spec).1.2 = some err ∧
      AddTask eng s spec task
        = ((0, some err), { s with cron := (eng.AddFunc s.cron spec).2 })) ∨
    ((eng.AddFunc s.cron spec).1.2 = none ∧
      AddTask eng s spec task
        = (((eng.AddFunc s.cron spec).1.1, none),
           { s with
             cron := (eng.AddFunc s.cron spec).2
             tasks := s.tasks.insert (eng.AddFunc s.cron spec).1.1
               { ID := (eng.AddFunc s.cron spec).1.1, Name := task.Name, Spec := spec,
                 Task := task,
                 NextRun := eng.EntryNext (eng.AddFunc s.cron spec).2
                   (eng.AddFunc s.cron spec).1.1 } })) := by
  cases h : (eng.AddFunc s.cron spec).1.2 with
  | none => exact Or.inr ⟨rfl, addTask_of_ok eng s spec task h⟩
  | some err => exact Or.inl ⟨err, rfl, addTask_of_error eng s spec task err h⟩

/-- A property of single records that holds for a fresh record and is kept by both locked
sections of the callback and by the `NextRun` refresh holds for every record of every
reachable state. -/
theorem reachable_records (eng : Engine E) (P : EntryID → TaskInfo → Prop)
    (hnew : ∀ id name spec task next,
      P id { ID := id, Name := name, Spec := spec, Task := task, NextRun := next })
    (hfire : ∀ k r st next err, P k r → P k ((r.started st).finished next err))
    (hrefresh : ∀ k r next, P k r → P k { r with NextRun := next })
    (s : Scheduler E) (hs : Reachable eng s) :
    ∀ k r, GetTaskInfo s k = some r → P k r := by
  induction hs with
  | new opts =>
    intro k r h
    simp [GetTaskInfo, NewScheduler, AList.lookup_empty] at h
  | @addTask s spec task _ ih =>
    intro k r h
    rcases addTask_cases eng s spec task with ⟨err, _, hA⟩ | ⟨_, hA⟩
    · rw [hA] at h
      exact ih k r h
    · rw [hA] at h
      by_cases hk : k = (eng.AddFunc s.cron spec).1.1
      · rw [hk] at h ⊢
        simp only [GetTaskInfo, AList.lookup_insert, Option.some.injEq] at h
        rw [← h]
        exact hnew _ _ _ _ _
      · simp only [GetTaskInfo, AList.lookup_insert_ne hk] at h
        exact ih k r h
  | @removeTask s id _ ih =>
    intro k r h
    by_cases hk : k = id
    · subst hk
      simp [GetTaskInfo, RemoveTask, AList.lookup_erase] at h
    · simp only [GetTaskInfo, RemoveTask, AList.lookup_erase_ne hk] at h
      exact ih k r h
  | @fire s taskID task inp _ ih =>
    intro k r h
    by_cases hk : k = taskID
    · subst hk
      cases h0 : GetTaskInfo s k with
      | none =>
        have := fire_tasks_of_none eng s k task inp h0
        unfold GetTaskInfo at h h0
        rw [this, h0] at h
        exact absurd h (by simp)
      | some r₀ =>
        rw [fire_lookup_self eng s k task inp r₀ h0] at h
        simp only [Option.some.injEq] at h
        rw [← h]
        exact hfire _ _ _ _ _ (ih k r₀ h0)
    · rw [fire_lookup_ne eng s taskID task inp k hk] at h
      exact ih k r h
  | @getAllTasks s _ ih =>
    intro k r h
    simp only [GetTaskInfo, GetAllTasks, Registry.lookup_mapValues] at h
    cases h0 : s.tasks.lookup k with
    | none => rw [h0] at h; simp at h
    | some r₀ =>
      rw [h0] at h
      simp only [Option.map_some', Option.some.injEq] at h
      rw [← h]
      exact hrefresh _ _ _ (ih k r₀ h0)
  | @engineStep s c _ _ ih =>
    intro k r h
    exact ih k r h

theorem reachable_keyedByID (eng : Engine E) (s : Scheduler E) (hs : Reachable eng s) :
    KeyedByID s :=
  reachable_records eng (fun k r => r.ID = k)
    (fun _ _ _ _ _ => rfl)
    (fun _ r st next err h => (finished_ID (r.started st) next err).trans h)
    (fun _ _ _ h => h) s hs

theorem reachable_entries (eng : Engine E) (hL : eng.Lawful) (s : Scheduler E)
    (hs : Reachable eng s) : ∀ k, k ∈ eng.EntryIDs s.cron ↔ k ∈ s.tasks := by
  induction hs with
  | new opts =>
    intro k
    simp only [NewScheduler]
    constructor
    · intro h; exact absurd h (hL.new_entries _ k)
    · intro h; exact absurd h (AList.not_mem_empty k)
  | @addTask s spec task _ ih =>
    intro k
    rcases addTask_cases eng s spec task with ⟨err, he, hA⟩ | ⟨he, hA⟩
    · rw [hA]
      simp only
      rw [hL.add_err s.cron spec (by rw [he]; simp) k]
      exact ih k
    · rw [hA]
      simp only
      rw [hL.add_ok s.cron spec he k, AList.mem_insert, ih k]
  | @removeTask s id _ ih =>
    intro k
    simp only [RemoveTask]
    rw [hL.remove, AList.mem_erase, ih k, and_comm]
  | @fire s taskID task inp _ ih =>
    intro k
    rw [fire_cron, fire_mem_keys]
    exact ih k
  | @getAllTasks s _ ih =>
    intro k
    simp only [GetAllTasks]
    rw [AList.mem_keys, Registry.keys_mapValues, ← AList.mem_keys]
    exact ih k
  | @engineStep s c _ hc ih =>
    intro k
    simp only
    rw [hc k]
    exact ih k

theorem refEngine_lawful : refEngine.Lawful where
  new_entries := by intro loc k; simp [refEngine]
  add_ok := by
    intro c spec h k
    by_cases hs : spec.length = 0
    · simp [refEngine, hs] at h
    · simp [refEngine, hs, or_comm]
  add_err := by
    intro c spec h k
    by_cases hs : spec.length = 0
    · simp [refEngine, hs]
    · simp [refEngine, hs] at h
  remove := by
    intro c id k
    simp only [refEngine, List.mem_map, List.mem_filter]
    constructor
    · rintro ⟨e, ⟨he, hne⟩, rfl⟩
      exact ⟨⟨e, he, rfl⟩, by simpa using hne⟩
    · rintro ⟨⟨e, he, rfl⟩, hne⟩
      exact ⟨e, ⟨he, by simpa using hne⟩, rfl⟩

/-! ## Witness of the removal theorem -/

theorem removeTask_deletes_key_witness :
    KeyedByID (AddTask refEngine tracedScheduler "* * * * * *" okTask).2 ∧
    GetTaskInfo (RemoveTask refEngine tracedScheduler 5) 5 = none ∧
    (RemoveTask refEngine tracedScheduler 5).tasks = tracedScheduler.tasks ∧
    ∀ r ∈ (GetAllTasks refEngine
        (RemoveTask refEngine (AddTask refEngine tracedScheduler "* * * * * *" okTask).2
          1)).1, r.ID ≠ 1 :=
  ⟨reachable_keyedByID refEngine _ (Reachable.addTask _ _ (Reachable.new none)),
   (removeTask_deletes_key refEngine tracedScheduler 5).2.1,
   (removeTask_deletes_key refEngine tracedScheduler 5).2.2.2.1 rfl,
   (removeTask_deletes_key refEngine
      (AddTask refEngine tracedScheduler "* * * * * *" okTask).2 1).2.2.2.2.2
     (reachable_keyedByID refEngine _ (Reachable.addTask _ _ (Reachable.new none)))⟩

/-! ## Registry and engine agree -/

/-- C7: in every state reachable from a new scheduler (over an engine that keeps its set
of entries as `AddFunc` and `Remove` tell), the handles active in the engine are exactly
the keys of the registry, every key occurs once, and the record under a key carries that
key as its `ID`. -/
theorem registry_keys_match_engine (eng : Engine E) (hL : eng.Lawful) (s : Scheduler E)
    (hs : Reachable eng s) :
    (∀ k, k ∈ eng.EntryIDs s.cron ↔ k ∈ s.tasks.keys) ∧
    s.tasks.keys.Nodup ∧
    (∀ k, k ∈ s.tasks.keys → ∃ r, GetTaskInfo s k = some r ∧ r.ID = k) := by
  refine ⟨?_, s.tasks.keys_nodup, ?_⟩
  · intro k
    rw [← AList.mem_keys]
    exact reachable_entries eng hL s hs k
  · intro k hk
    have hsome : (s.tasks.lookup k).isSome := AList.lookup_isSome.2 (AList.mem_keys.2 hk)
    obtain ⟨r, hr⟩ := Option.isSome_iff_exists.1 hsome
    exact ⟨r, hr, reachable_keyedByID eng s hs k r hr⟩

theorem registry_keys_match_engine_witness :
    refEngine.Lawful ∧
    Reachable refEngine
      (RemoveTask refEngine
        (AddTask refEngine (AddTask refEngine tracedScheduler "* * * * * *" okTask).2
          "0 */5 * * * *" failTask).2 1) ∧
    (∀ k, k ∈ refEngine.EntryIDs
        (RemoveTask refEngine
          (AddTask refEngine (AddTask refEngine tracedScheduler "* * * * * *" okTask).2
            "0 */5 * * * *" failTask).2 1).cron ↔
      k ∈ (RemoveTask refEngine
          (AddTask refEngine (AddTask refEngine tracedScheduler "* * * * * *" okTask).2
            "0 */5 * * * *" failTask).2 1).tasks.keys) ∧
    (RemoveTask refEngine
        (AddTask refEngine (AddTask refEngine tracedScheduler "* * * * * *" okTask).2
          "0 */5 * * * *" failTask).2 1).tasks.keys = [2] :=
  ⟨refEngine_lawful,
   Reachable.removeTask 1 (Reachable.addTask _ _ (Reachable.addTask _ _ (Reachable.new none))),
   (registry_keys_match_engine refEngine refEngine_lawful _
     (Reachable.removeTask 1
       (Reachable.addTask _ _ (Reachable.addTask _ _ (Reachable.new none))))).1,
   rfl⟩

/-! ## GetAllTasks -/

theorem getAllTasks_mem_of_lookup (eng : Engine E) (s : Scheduler E) (k : EntryID)
    (r : TaskInfo) (h : GetTaskInfo s k = some r) :
    { r with NextRun := eng.EntryNext s.cron r.ID } ∈ (GetAllTasks eng s).1 := by
  refine (Registry.mem_values_iff _ _).2 ⟨k, ?_⟩
  unfold GetTaskInfo at h
  rw [Registry.lookup_mapValues, h]
  rfl

theorem getAllTasks_map_ID (eng : Engine E) (s : Scheduler E) (h : KeyedByID s) :
    (GetAllTasks eng s).1.map (fun r => r.ID) = s.tasks.keys := by
  simp only [GetAllTasks, Registry.values, Registry.mapValues, List.map_map, AList.keys,
    List.keys]
  apply List.map_congr_left
  intro e he
  have : s.tasks.lookup e.1 = some e.2 := by
    have := (AList.mem_lookup_iff (a := e.1) (b := e.2) (s := s.tasks)).2 he
    simpa using this
  exact h e.1 e.2 this

/-- C9: `GetAllTasks` returns as many records as the registry has keys; every returned
record is a registry record with `NextRun` set to the engine's current next fire time of
its handle and nothing else changed, every registry record is returned so, and (records
being stored under their own ID) the handles of the returned records are the registry keys,
each once, in some order. The registry keeps its keys, and its records change in `NextRun`
only, in the same way. -/
theorem getAllTasks_snapshot (eng : Engine E) (s : Scheduler E) :
    (GetAllTasks eng s).1.length = s.tasks.keys.length ∧
    (∀ r' ∈ (GetAllTasks eng s).1, ∃ k r, GetTaskInfo s k = some r ∧
      r' = { r with NextRun := eng.EntryNext s.cron r.ID } ∧
      r'.NextRun = eng.EntryNext s.cron r'.ID) ∧
    (∀ k r, GetTaskInfo s k = some r →
      { r with NextRun := eng.EntryNext s.cron r.ID } ∈ (GetAllTasks eng s).1) ∧
    (KeyedByID s →
      ((GetAllTasks eng s).1.map (fun r => r.ID)).Perm s.tasks.keys ∧
      ((GetAllTasks eng s).1.map (fun r => r.ID)).Nodup) ∧
    (∀ k, GetTaskInfo (GetAllTasks eng s).2 k
      = (GetTaskInfo s k).map
          (fun r => { r with NextRun := eng.EntryNext s.cron r.ID })) ∧
    (GetAllTasks eng s).2.cron = s.cron := by
  refine ⟨?_, ?_, ?_, ?_, ?_, rfl⟩
  · show (s.tasks.mapValues _).values.length = _
    rw [Registry.length_values, Registry.keys_mapValues]
  · intro r' hr'
    obtain ⟨k, r, hk, rfl⟩ := getAllTasks_ids eng s r' hr'
    exact ⟨k, r, hk, rfl, rfl⟩
  · intro k r h
    exact getAllTasks_mem_of_lookup eng s k r h
  · intro h
    rw [getAllTasks_map_ID eng s h]
    exact ⟨List.Perm.refl _, s.tasks.keys_nodup⟩
  · intro k
    exact Registry.lookup_mapValues _ _ k

theorem getAllTasks_snapshot_witness :
    KeyedByID
      (AddTask refEngine (AddTask refEngine tracedScheduler "* * * * * *" okTask).2
        "0 */5 * * * *" failTask).2 ∧
    ((GetAllTasks refEngine
        (AddTask refEngine (AddTask refEngine tracedScheduler "* * * * * *" okTask).2
          "0 */5 * * * *" failTask).2).1.map (fun r => r.ID)).Perm
      (AddTask refEngine (AddTask refEngine tracedScheduler "* * * * * *" okTask).2
        "0 */5 * * * *" failTask).2.tasks.keys ∧
    (GetAllTasks refEngine
        (AddTask refEngine (AddTask refEngine tracedScheduler "* * * * * *" okTask).2
          "0 */5 * * * *" failTask).2).1.map (fun r => (r.ID, r.NextRun))
      = [(2, 780), (1, 660)] :=
  ⟨reachable_keyedByID refEngine _
     (Reachable.addTask _ _ (Reachable.addTask _ _ (Reachable.new none))),
   ((getAllTasks_snapshot refEngine _).2.2.2.1
     (reachable_keyedByID refEngine _
       (Reachable.addTask _ _ (Reachable.addTask _ _ (Reachable.new none))))).1,
   rfl⟩

/-! ## Events of one fire -/

theorem fire_events_traced (eng : Engine E) (s : Scheduler E) (taskID : EntryID)
    (task : Task) (inp : FireInput) (r : TaskInfo) (h : GetTaskInfo s taskID = some r)
    (hT : s.opts.EnableTrace = true) :
    (fire eng s taskID task inp).2
      = [Event.registryStart taskID inp.startTime]
        ++ (runTaskWithTrace Ctx.background task
              (fun ctx => (task.Run ctx inp.world, [Event.taskRun ctx]))
              inp.traceStart inp.traceEnd).2
        ++ [Event.registryFinish taskID (eng.EntryNext s.cron taskID)
              (task.Run (runCtx s.opts task) inp.world),
            match task.Run (runCtx s.opts task) inp.world with
            | some e => Event.logError Ctx.background "Cron task failed" task.Name
                (since inp.endTime inp.startTime) e
            | none => Event.logInfo Ctx.background "Cron task completed" task.Name
                (since inp.endTime inp.startTime)] := by
  unfold GetTaskInfo at h
  unfold fire
  rw [h]
  simp [hT, runCtx, runTaskWithTrace]

theorem fire_events_plain (eng : Engine E) (s : Scheduler E) (taskID : EntryID)
    (task : Task) (inp : FireInput) (r : TaskInfo) (h : GetTaskInfo s taskID = some r)
    (hT : s.opts.EnableTrace = false) :
    (fire eng s taskID task inp).2
      = [Event.registryStart taskID inp.startTime, Event.taskRun Ctx.background,
         Event.registryFinish taskID (eng.EntryNext s.cron taskID)
           (task.Run Ctx.background inp.world),
         match task.Run Ctx.background inp.world with
         | some e => Event.logError Ctx.background "Cron task failed" task.Name
             (since inp.endTime inp.startTime) e
         | none => Event.logInfo Ctx.background "Cron task completed" task.Name
             (since inp.endTime inp.startTime)] := by
  unfold GetTaskInfo at h
  unfold fire
  rw [h]
  simp [hT]

/-- The number of log records of one fire of a registered handle: two with tracing (one by
the wrapper, one by the callback), one without. -/
theorem fire_log_count (eng : Engine E) (s : Scheduler E) (taskID : EntryID)
    (task : Task) (inp : FireInput) (r : TaskInfo) (h : GetTaskInfo s taskID = some r) :
    (fire eng s taskID task inp).2.countP Event.isLog
      = if s.opts.EnableTrace then 2 else 1 := by
  cases hT : s.opts.EnableTrace with
  | true =>
    rw [fire_events_traced eng s taskID task inp r h hT]
    cases hr : task.Run (runCtx s.opts task) inp.world <;>
      simp [runCtx, hT] at hr <;>
      simp [runTaskWithTrace, hr, List.countP_cons, Event.isLog]
  | false =>
    rw [fire_events_plain eng s taskID task inp r h hT]
    cases hr : task.Run Ctx.background inp.world <;>
      simp [List.countP_cons, Event.isLog]

/-- C5: evaluation at a registered task with tracing enabled. A successful fire emits two
Info records and a failing fire two Error records (one inside the span, one by the callback
afterwards), where the same fires with tracing disabled emit one; the span is opened and
closed once. -/
theorem traced_fire_logs_twice :
    GetTaskInfo (AddTask refEngine tracedScheduler "* * * * * *" okTask).2 1 ≠ none ∧
    tracedScheduler.opts.EnableTrace = true ∧
    (fire refEngine (AddTask refEngine tracedScheduler "* * * * * *" okTask).2 1 okTask
      (sampleInput 0)).2.countP Event.isLog = 2 ∧
    (fire refEngine (AddTask refEngine tracedScheduler "* * * * * *" okTask).2 1 okTask
      (sampleInput 0)).2.countP Event.isLogInfo = 2 ∧
    (fire refEngine (AddTask refEngine tracedScheduler "* * * * * *" failTask).2 1 failTask
      (sampleInput 1)).2.countP Event.isLogError = 2 ∧
    (fire refEngine (AddTask refEngine plainScheduler "* * * * * *" okTask).2 1 okTask
      (sampleInput 0)).2.countP Event.isLog = 1 ∧
    (fire refEngine (AddTask refEngine plainScheduler "* * * * * *" failTask).2 1 failTask
      (sampleInput 1)).2.countP Event.isLog = 1 ∧
    (fire refEngine (AddTask refEngine tracedScheduler "* * * * * *" okTask).2 1 okTask
      (sampleInput 0)).2.countP Event.isSpanStart = 1 ∧
    (fire refEngine (AddTask refEngine tracedScheduler "* * * * * *" okTask).2 1 okTask
      (sampleInput 0)).2.countP Event.isSpanEnd = 1 := by
  refine ⟨?_, rfl, ?_, ?_, ?_, ?_, ?_, ?_, ?_⟩
  · intro h; cases h
  all_goals decide

theorem fire_events_traced_ok (eng : Engine E) (s : Scheduler E) (taskID : EntryID)
    (task : Task) (inp : FireInput) (r : TaskInfo) (h : GetTaskInfo s taskID = some r)
    (hT : s.opts.EnableTrace = true)
    (hr : task.Run (runCtx s.opts task) inp.world = none) :
    (fire eng s taskID task inp).2
      = [Event.registryStart taskID inp.startTime,
         Event.spanStart "cron.task" [("cron.task.name", task.Name)],
         Event.taskRun (runCtx s.opts task),
         Event.logInfo (runCtx s.opts task) "Cron task completed" task.Name
           (since inp.traceEnd inp.traceStart),
         Event.spanSetAttributes "cron.duration_ms"
           (Milliseconds (since inp.traceEnd inp.traceStart)),
         Event.spanSetStatus Code.Ok "",
         Event.spanEnd,
         Event.registryFinish taskID (eng.EntryNext s.cron taskID) none,
         Event.logInfo Ctx.background "Cron task completed" task.Name
           (since inp.endTime inp.startTime)] := by
  rw [fire_events_traced eng s taskID task inp r h hT, hr]
  simp only [runCtx, hT, if_true] at hr ⊢
  simp only [runTaskWithTrace, hr]
  rfl

theorem fire_events_traced_err (eng : Engine E) (s : Scheduler E) (taskID : EntryID)
    (task : Task) (inp : FireInput) (r : TaskInfo) (e : GoError)
    (h : GetTaskInfo s taskID = some r) (hT : s.opts.EnableTrace = true)
    (hr : task.Run (runCtx s.opts task) inp.world = some e) :
    (fire eng s taskID task inp).2
      = [Event.registryStart taskID inp.startTime,
         Event.spanStart "cron.task" [("cron.task.name", task.Name)],
         Event.taskRun (runCtx s.opts task),
         Event.logError (runCtx s.opts task) "Cron task failed" task.Name
           (since inp.traceEnd inp.traceStart) e,
         Event.spanSetAttributes "cron.duration_ms"
           (Milliseconds (since inp.traceEnd inp.traceStart)),
         Event.spanSetStatus Code.Error e,
         Event.spanRecordError e,
         Event.spanEnd,
         Event.registryFinish taskID (eng.EntryNext s.cron taskID) (some e),
         Event.logError Ctx.background "Cron task failed" task.Name
           (since inp.endTime inp.startTime) e] := by
  rw [fire_events_traced eng s taskID task inp r h hT, hr]
  simp only [runCtx, hT, if_true] at hr ⊢
  simp only [runTaskWithTrace, hr]
  rfl

theorem runCtx_traced (opts : Options) (task : Task) (hT : opts.EnableTrace = true) :
    runCtx opts task
      = Ctx.withSpan Ctx.background "cron.task" [("cron.task.name", task.Name)] := by
  simp [runCtx, hT]

/-- C6, amended: for every fire of a registered task with tracing enabled, the first
registry update precedes the opening of the span, the task's `Run` happens inside the span,
the log record of the wrapper follows `Run` and precedes the setting of the duration
attribute, which precedes the setting of the status, which precedes the closing of the
span; the second registry update follows the closing of the span. Each of these steps
happens exactly once. -/
theorem traced_fire_order (eng : Engine E) (s : Scheduler E) (taskID : EntryID)
    (task : Task) (inp : FireInput) (r : TaskInfo) (h : GetTaskInfo s taskID = some r)
    (hT : s.opts.EnableTrace = true) :
    (Once Event.isRegistryStart (fire eng s taskID task inp).2 ∧
     Once Event.isSpanStart (fire eng s taskID task inp).2 ∧
     Once Event.isTaskRun (fire eng s taskID task inp).2 ∧
     Once Event.isSpanLog (fire eng s taskID task inp).2 ∧
     Once Event.isSetAttributes (fire eng s taskID task inp).2 ∧
     Once Event.isSetStatus (fire eng s taskID task inp).2 ∧
     Once Event.isSpanEnd (fire eng s taskID task inp).2 ∧
     Once Event.isRegistryFinish (fire eng s taskID task inp).2) ∧
    (Before Event.isRegistryStart Event.isSpanStart (fire eng s taskID task inp).2 ∧
     Before Event.isSpanStart Event.isTaskRun (fire eng s taskID task inp).2 ∧
     Before Event.isTaskRun Event.isSpanLog (fire eng s taskID task inp).2 ∧
     Before Event.isSpanLog Event.isSetAttributes (fire eng s taskID task inp).2 ∧
     Before Event.isSetAttributes Event.isSetStatus (fire eng s taskID task inp).2 ∧
     Before Event.isSetStatus Event.isSpanEnd (fire eng s taskID task inp).2 ∧
     Before Event.isSpanEnd Event.isRegistryFinish (fire eng s taskID task inp).2) := by
  cases hr : task.Run (runCtx s.opts task) inp.world with
  | none =>
    rw [fire_events_traced_ok eng s taskID task inp r h hT hr, runCtx_traced _ _ hT]
    exact of_decide_eq_true rfl
  | some e =>
    rw [fire_events_traced_err eng s taskID task inp r e h hT hr, runCtx_traced _ _ hT]
    exact of_decide_eq_true rfl

theorem traced_fire_order_witness :
    GetTaskInfo (AddTask refEngine tracedScheduler "* * * * * *" failTask).2 1
      = some { ID := 1, Name := "fail", Spec := "* * * * * *", Task := failTask,
               NextRun := 660 } ∧
    (AddTask refEngine tracedScheduler "* * * * * *" failTask).2.opts.EnableTrace = true ∧
    Before Event.isSpanLog Event.isSetAttributes
      (fire refEngine (AddTask refEngine tracedScheduler "* * * * * *" failTask).2 1
        failTask (sampleInput 1)).2 ∧
    Before Event.isSpanEnd Event.isRegistryFinish
      (fire refEngine (AddTask refEngine tracedScheduler "* * * * * *" failTask).2 1
        failTask (sampleInput 1)).2 :=
  ⟨rfl, rfl,
   (traced_fire_order refEngine
     (AddTask refEngine tracedScheduler "* * * * * *" failTask).2 1 failTask
     (sampleInput 1) _ rfl rfl).2.2.2.2.1,
   (traced_fire_order refEngine
     (AddTask refEngine tracedScheduler "* * * * * *" failTask).2 1 failTask
     (sampleInput 1) _ rfl rfl).2.2.2.2.2.2.2⟩

/-- C6, as stated, fails: for a registered task with tracing enabled the second registry
update comes after the span has been closed, not before its attribute, status and end. -/
theorem traced_fire_listed_order_fails :
    GetTaskInfo (AddTask refEngine tracedScheduler "* * * * * *" okTask).2 1 ≠ none ∧
    tracedScheduler.opts.EnableTrace = true ∧
    ¬ ListedOrder
      (fire refEngine (AddTask refEngine tracedScheduler "* * * * * *" okTask).2 1 okTask
        (sampleInput 0)).2 ∧
    ¬ Before Event.isRegistryFinish Event.isSpanEnd
      (fire refEngine (AddTask refEngine tracedScheduler "* * * * * *" okTask).2 1 okTask
        (sampleInput 0)).2 := by
  refine ⟨?_, rfl, ?_, ?_⟩
  · intro h; cases h
  all_goals decide

/-! ## int64 counters -/

theorem wrap64_of_inInt64 (x : Int) (h : InInt64 x) : wrap64 x = x := by
  unfold InInt64 at h
  unfold wrap64
  omega

theorem wrap64_add_wrap64 (a b : Int) : wrap64 (wrap64 a + b) = wrap64 (a + b) := by
  unfold wrap64
  omega

theorem wrap64_zero : wrap64 0 = 0 := by decide

theorem wrap64_max : wrap64 9223372036854775808 = -9223372036854775808 := by decide

/-! ## Operations, one record at a time -/

theorem step_opts (eng : Engine E) (s : Scheduler E) (op : Op E) :
    (step eng s op).opts = s.opts := by
  cases op with
  | add spec task =>
    show (AddTask eng s spec task).2.opts = s.opts
    rcases addTask_cases eng s spec task with ⟨err, _, hA⟩ | ⟨_, hA⟩ <;> rw [hA]
  | remove id => rfl
  | fire taskID task inp => exact fire_opts eng s taskID task inp
  | getAll => rfl
  | engine c => rfl

theorem run_opts (eng : Engine E) :
    ∀ (ops : List (Op E)) (s : Scheduler E), (run eng s ops).opts = s.opts := by
  intro ops
  induction ops with
  | nil => intro s; rfl
  | cons op ops ih =>
    intro s
    show (run eng (step eng s op) ops).opts = s.opts
    rw [ih, step_opts]

/-- The record under `id` after one operation that keeps the registration: a fire of `id`
runs both locked sections on it, `GetAllTasks` refreshes `NextRun`, anything else leaves
it as it is. -/
theorem step_record (eng : Engine E) (id : EntryID) (task : Task) (s : Scheduler E)
    (op : Op E) (r : TaskInfo) (hk : op.keeps eng id task s)
    (h : GetTaskInfo s id = some r) :
    ∃ r', GetTaskInfo (step eng s op) id = some r' ∧
      ((∃ inp, op = Op.fire id task inp ∧
          r' = (r.started inp.startTime).finished (eng.EntryNext s.cron id)
                (task.Run (runCtx s.opts task) inp.world)) ∨
       (firesOf id [op] = [] ∧ r'.RunCount = r.RunCount ∧ r'.ErrorCount = r.ErrorCount ∧
          r'.LastError = r.LastError)) := by
  cases op with
  | add spec t =>
    refine ⟨r, ?_, Or.inr ⟨rfl, rfl, rfl, rfl⟩⟩
    show GetTaskInfo (AddTask eng s spec t).2 id = some r
    rcases addTask_cases eng s spec t with ⟨err, _, hA⟩ | ⟨hok, hA⟩
    · rw [hA]; exact h
    · rw [hA]
      have hne : id ≠ (eng.AddFunc s.cron spec).1.1 := fun e => hk hok e.symm
      simpa [GetTaskInfo, AList.lookup_insert_ne hne] using h
  | remove k =>
    refine ⟨r, ?_, Or.inr ⟨rfl, rfl, rfl, rfl⟩⟩
    have hne : id ≠ k := fun e => hk e.symm
    simpa [step, GetTaskInfo, RemoveTask, AList.lookup_erase_ne hne] using h
  | fire taskID t inp =>
    by_cases hid : taskID = id
    · have ht : t = task := hk hid
      subst hid ht
      exact ⟨_, fire_lookup_self eng s taskID t inp r h, Or.inl ⟨inp, rfl, rfl⟩⟩
    · refine ⟨r, ?_, Or.inr ⟨?_, rfl, rfl, rfl⟩⟩
      · show GetTaskInfo (fire eng s taskID t inp).1 id = some r
        rw [fire_lookup_ne eng s taskID t inp id (fun e => hid e.symm)]
        exact h
      · simp [firesOf, hid]
  | getAll =>
    refine ⟨{ r with NextRun := eng.EntryNext s.cron r.ID }, ?_, Or.inr ⟨rfl, rfl, rfl, rfl⟩⟩
    show GetTaskInfo (GetAllTasks eng s).2 id = _
    unfold GetTaskInfo at h
    simp [GetTaskInfo, GetAllTasks, Registry.lookup_mapValues, h]
  | engine c =>
    exact ⟨r, h, Or.inr ⟨rfl, rfl, rfl, rfl⟩⟩

theorem firesOf_cons (id : EntryID) (op : Op E) (ops : List (Op E)) :
    firesOf id (op :: ops) = firesOf id [op] ++ firesOf id ops := by
  cases op with
  | fire taskID t inp =>
    by_cases h : taskID = id <;> simp [firesOf, h]
  | add spec t => rfl
  | remove k => rfl
  | getAll => rfl
  | engine c => rfl

/-- The counters and `LastError` of the record under `id` after a sequence of operations
that keeps the registration: `RunCount` has gone up, with wrap-around, by the number of
fires of `id`, `ErrorCount` by the number of failed ones, and `LastError` is that of the
last failed one. -/
theorem run_counts (eng : Engine E) (id : EntryID) (task : Task) :
    ∀ (ops : List (Op E)) (s : Scheduler E) (r : TaskInfo) (a b : Int),
      Keeps eng id task s ops → GetTaskInfo s id = some r →
      r.RunCount = wrap64 a → r.ErrorCount = wrap64 b →
      ∃ r', GetTaskInfo (run eng s ops) id = some r' ∧
        r'.RunCount = wrap64 (a + (firesOf id ops).length) ∧
        r'.ErrorCount = wrap64 (b + (failed s.opts task (firesOf id ops)).length) ∧
        r'.LastError = lastErrorAfter s.opts task r.LastError (firesOf id ops) := by
  intro ops
  induction ops with
  | nil =>
    intro s r a b _ h ha hb
    exact ⟨r, h, by simpa [firesOf] using ha, by simpa [firesOf, failed] using hb, rfl⟩
  | cons op ops ih =>
    intro s r a b hK h ha hb
    obtain ⟨hk, hK'⟩ := hK
    obtain ⟨r1, h1, hcase⟩ := step_record eng id task s op r hk h
    rw [firesOf_cons]
    show ∃ r', GetTaskInfo (run eng (step eng s op) ops) id = some r' ∧ _
    rcases hcase with ⟨inp, hop, hr1⟩ | ⟨hnil, hrc, hec, hle⟩
    · subst hop
      have hf : firesOf id [Op.fire id task inp (E := E)] = [inp] := by simp [firesOf]
      rw [hf]
      have hrc1 : r1.RunCount = wrap64 (a + 1) := by
        rw [hr1, finished_RunCount]
        show wrap64 (r.RunCount + 1) = _
        rw [ha, wrap64_add_wrap64]
      cases hrun : task.Run (runCtx s.opts task) inp.world with
      | none =>
        rw [hrun] at hr1
        have hec1 : r1.ErrorCount = wrap64 b := by rw [hr1]; exact hb
        have hle1 : r1.LastError = r.LastError := by rw [hr1]; rfl
        obtain ⟨r', h', hrc', hec', hle'⟩ := ih _ r1 (a + 1) b hK' h1 hrc1 hec1
        rw [step_opts] at hec' hle'
        refine ⟨r', h', ?_, ?_, ?_⟩
        · rw [hrc']; congr 1; simp only [List.singleton_append, List.length_cons]
          push_cast; ring
        · rw [hec']; simp [failed, hrun]
        · rw [hle', hle1]; simp [lastErrorAfter, hrun]
      | some e =>
        rw [hrun] at hr1
        have hec1 : r1.ErrorCount = wrap64 (b + 1) := by
          rw [hr1]
          show wrap64 (r.ErrorCount + 1) = _
          rw [hb, wrap64_add_wrap64]
        have hle1 : r1.LastError = some e := by rw [hr1]; rfl
        obtain ⟨r', h', hrc', hec', hle'⟩ := ih _ r1 (a + 1) (b + 1) hK' h1 hrc1 hec1
        rw [step_opts] at hec' hle'
        refine ⟨r', h', ?_, ?_, ?_⟩
        · rw [hrc']; congr 1; simp only [List.singleton_append, List.length_cons]
          push_cast; ring
        · rw [hec']; congr 1; simp [failed, hrun]; ring
        · rw [hle', hle1]; simp [lastErrorAfter, hrun]
    · rw [hnil, List.nil_append]
      obtain ⟨r', h', hrc', hec', hle'⟩ :=
        ih _ r1 a b hK' h1 (hrc.trans ha) (hec.trans hb)
      rw [step_opts] at hec' hle'
      exact ⟨r', h', hrc', hec', by rw [hle', hle]⟩

theorem failed_of_always (opts : Options) (task : Task)
    (hfail : ∀ ctx w, task.Run ctx w ≠ none) (inps : List FireInput) :
    failed opts task inps = inps := by
  unfold failed
  rw [List.filter_eq_self]
  intro inp _
  exact Option.isSome_iff_ne_none.2 (hfail _ _)

theorem lastErrorAfter_of_always (opts : Options) (task : Task)
    (hfail : ∀ ctx w, task.Run ctx w ≠ none) :
    ∀ (inps : List FireInput) (d : Option GoError) (last : FireInput),
      inps.getLast? = some last →
      lastErrorAfter opts task d inps = task.Run (runCtx opts task) last.world := by
  intro inps
  induction inps with
  | nil => intro d last h; simp at h
  | cons inp rest ih =>
    intro d last h
    obtain ⟨e, he⟩ := Option.ne_none_iff_exists'.1 (hfail (runCtx opts task) inp.world)
    cases rest with
    | nil =>
      simp only [List.getLast?_singleton, Option.some.injEq] at h
      subst h
      simp [lastErrorAfter, he]
    | cons b t =>
      rw [List.getLast?_cons_cons] at h
      have := ih (some e) last h
      simpa [lastErrorAfter, he] using this

theorem keeps_replicate_fire (eng : Engine E) (id : EntryID) (task : Task)
    (inp : FireInput) :
    ∀ (n : Nat) (s : Scheduler E),
      Keeps eng id task s (List.replicate n (Op.fire id task inp)) := by
  intro n
  induction n with
  | zero => intro s; exact trivial
  | succ n ih =>
    intro s
    rw [List.replicate_succ]
    exact ⟨fun _ => rfl, ih _⟩

theorem firesOf_replicate_fire (id : EntryID) (task : Task) (inp : FireInput) (n : Nat) :
    firesOf id (List.replicate n (Op.fire id task inp (E := E))) = List.replicate n inp := by
  induction n with
  | zero => rfl
  | succ n ih =>
    rw [List.replicate_succ, List.replicate_succ, firesOf_cons, ih]
    simp [firesOf]

theorem addTask_opts (eng : Engine E) (s : Scheduler E) (spec : String) (task : Task) :
    (AddTask eng s spec task).2.opts = s.opts := step_opts eng s (Op.add spec task)

/-- C4, amended: a task whose `Run` fails on every call. One completed fire of its handle
adds one, with `int64` wrap-around, to `RunCount` and to `ErrorCount` and stores the
error of that run as `LastError`. After its registration and any sequence of completed
operations that contains `N` fires of the handle (other handles may be added, fired and
removed, and `GetAllTasks` called, in between; the handle is not removed or handed out
again), the record has `RunCount = ErrorCount = N` wrapped to 64 bits, so `N` itself for
every `N < 2^63`, and for `N ≥ 1` its `LastError` is the error of the last run. -/
theorem always_failing_task_counts (eng : Engine E) (task : Task)
    (hfail : ∀ ctx w, task.Run ctx w ≠ none) :
    (∀ (s : Scheduler E) (id : EntryID) (r : TaskInfo) (inp : FireInput),
      GetTaskInfo s id = some r →
      ∃ e r', task.Run (runCtx s.opts task) inp.world = some e ∧
        GetTaskInfo (fire eng s id task inp).1 id = some r' ∧
        r'.RunCount = wrap64 (r.RunCount + 1) ∧ r'.ErrorCount = wrap64 (r.ErrorCount + 1) ∧
        r'.LastError = some e) ∧
    (∀ (s : Scheduler E) (spec : String) (id : EntryID) (ops : List (Op E)),
      (eng.AddFunc s.cron spec).1 = (id, none) →
      Keeps eng id task (AddTask eng s spec task).2 ops →
      ∃ r, GetTaskInfo (run eng (AddTask eng s spec task).2 ops) id = some r ∧
        r.RunCount = wrap64 (firesOf id ops).length ∧
        r.ErrorCount = wrap64 (firesOf id ops).length ∧
        (((firesOf id ops).length : Int) < 9223372036854775808 →
          r.RunCount = (firesOf id ops).length ∧ r.ErrorCount = (firesOf id ops).length) ∧
        (∀ last, (firesOf id ops).getLast? = some last →
          r.LastError = task.Run (runCtx s.opts task) last.world ∧
          r.LastError ≠ none)) := by
  constructor
  · intro s id r inp h
    obtain ⟨e, he⟩ := Option.ne_none_iff_exists'.1 (hfail (runCtx s.opts task) inp.world)
    refine ⟨e, _, he, fire_lookup_self eng s id task inp r h, ?_, ?_, ?_⟩
    · rw [finished_RunCount]; rfl
    · rw [he]; rfl
    · rw [he]; rfl
  · intro s spec id ops hadd hkeeps
    obtain ⟨_, hrec, _⟩ := addTask_ok_record eng s spec task id hadd
    obtain ⟨r, h, hrc, hec, hle⟩ :=
      run_counts eng id task ops (AddTask eng s spec task).2 _ 0 0 hkeeps hrec
        wrap64_zero.symm wrap64_zero.symm
    rw [addTask_opts] at hec hle
    rw [failed_of_always _ _ hfail] at hec
    rw [zero_add] at hrc hec
    refine ⟨r, h, hrc, hec, ?_, ?_⟩
    · intro hN
      have hin : InInt64 ((firesOf id ops).length : Int) := ⟨by omega, hN⟩
      rw [hrc, hec, wrap64_of_inInt64 _ hin]
      exact ⟨rfl, rfl⟩
    · intro last hl
      have := lastErrorAfter_of_always s.opts task hfail (firesOf id ops) none last hl
      have h2 : r.LastError = task.Run (runCtx s.opts task) last.world := by
        rw [hle]; exact this
      exact ⟨h2, by rw [h2]; exact hfail _ _⟩

theorem always_failing_task_counts_witness :
    (∀ ctx w, failTask.Run ctx w ≠ none) ∧
    (refEngine.AddFunc plainScheduler.cron "* * * * * *").1 = (1, none) ∧
    Keeps refEngine 1 failTask (AddTask refEngine plainScheduler "* * * * * *" failTask).2
      [Op.fire 1 failTask (sampleInput 1), Op.getAll, Op.add "0 */5 * * * *" okTask,
       Op.fire 2 okTask (sampleInput 0), Op.fire 1 failTask (sampleInput 2), Op.remove 2,
       Op.fire 1 failTask (sampleInput 3)] ∧
    ∃ r, GetTaskInfo
        (run refEngine (AddTask refEngine plainScheduler "* * * * * *" failTask).2
          [Op.fire 1 failTask (sampleInput 1), Op.getAll, Op.add "0 */5 * * * *" okTask,
           Op.fire 2 okTask (sampleInput 0), Op.fire 1 failTask (sampleInput 2),
           Op.remove 2, Op.fire 1 failTask (sampleInput 3)]) 1 = some r ∧
      r.RunCount = 3 ∧ r.ErrorCount = 3 ∧ r.LastError = some "!!!" := by
  have hf : ∀ ctx w, failTask.Run ctx w ≠ none := fun _ _ h => by cases h
  have hk : Keeps refEngine 1 failTask
      (AddTask refEngine plainScheduler "* * * * * *" failTask).2
      [Op.fire 1 failTask (sampleInput 1), Op.getAll, Op.add "0 */5 * * * *" okTask,
       Op.fire 2 okTask (sampleInput 0), Op.fire 1 failTask (sampleInput 2), Op.remove 2,
       Op.fire 1 failTask (sampleInput 3)] :=
    ⟨fun _ => rfl, trivial, fun _ => by decide, fun h => absurd h (by decide),
     fun _ => rfl, (by decide : (2 : EntryID) ≠ 1), fun _ => rfl, trivial⟩
  obtain ⟨r, h1, _, _, h4, h5⟩ :=
    (always_failing_task_counts refEngine failTask hf).2 plainScheduler "* * * * * *" 1
      _ rfl hk
  exact ⟨hf, rfl, hk, r, h1, (h4 (by decide)).1, (h4 (by decide)).2, (h5 _ rfl).1⟩

/-- C4, as stated, fails at `N = 2^63`: after that many fires of an always failing task
the `int64` counters have wrapped to `-2^63`. -/
theorem always_failing_counts_wrap :
    (∀ ctx w, failTask.Run ctx w ≠ none) ∧
    (refEngine.AddFunc plainScheduler.cron "* * * * * *").1 = (1, none) ∧
    ∃ r, GetTaskInfo
        (run refEngine (AddTask refEngine plainScheduler "* * * * * *" failTask).2
          (List.replicate 9223372036854775808 (Op.fire 1 failTask (sampleInput 1)))) 1
        = some r ∧
      r.RunCount = -9223372036854775808 ∧ r.ErrorCount = -9223372036854775808 ∧
      r.RunCount ≠ 9223372036854775808 := by
  have hf : ∀ ctx w, failTask.Run ctx w ≠ none := fun _ _ h => by cases h
  obtain ⟨_, hrec, _⟩ :=
    addTask_ok_record refEngine plainScheduler "* * * * * *" failTask 1 rfl
  obtain ⟨r, h, hrc, hec, _⟩ :=
    run_counts refEngine 1 failTask
      (List.replicate 9223372036854775808 (Op.fire 1 failTask (sampleInput 1)))
      (AddTask refEngine plainScheduler "* * * * * *" failTask).2 _ 0 0
      (keeps_replicate_fire refEngine 1 failTask (sampleInput 1) _ _) hrec
      wrap64_zero.symm wrap64_zero.symm
  rw [failed_of_always _ _ hf] at hec
  rw [firesOf_replicate_fire, List.length_replicate, zero_add] at hrc hec
  have hw : wrap64 ((9223372036854775808 : Nat) : Int) = -9223372036854775808 := by
    rw [Nat.cast_ofNat]; exact wrap64_max
  rw [hw] at hrc hec
  exact ⟨hf, rfl, r, h, hrc, hec, by rw [hrc]; decide⟩

/-! ## ErrorCount against RunCount -/

theorem started_finished_bound (r : TaskInfo) (st next : Time) (err : Option GoError)
    (m : Int) (hm : m + 1 < 9223372036854775808)
    (h : 0 ≤ r.ErrorCount ∧ r.ErrorCount ≤ r.RunCount ∧ r.RunCount ≤ m) :
    0 ≤ ((r.started st).finished next err).ErrorCount ∧
    ((r.started st).finished next err).ErrorCount
      ≤ ((r.started st).finished next err).RunCount ∧
    ((r.started st).finished next err).RunCount ≤ m + 1 := by
  obtain ⟨h0, h1, h2⟩ := h
  have hrc : ((r.started st).finished next err).RunCount = r.RunCount + 1 := by
    rw [finished_RunCount]
    show wrap64 (r.RunCount + 1) = _
    exact wrap64_of_inInt64 _ ⟨by omega, by omega⟩
  rw [hrc]
  cases err with
  | none =>
    show 0 ≤ r.ErrorCount ∧ r.ErrorCount ≤ r.RunCount + 1 ∧ r.RunCount + 1 ≤ m + 1
    omega
  | some e =>
    show 0 ≤ wrap64 (r.ErrorCount + 1) ∧ wrap64 (r.ErrorCount + 1) ≤ r.RunCount + 1 ∧
      r.RunCount + 1 ≤ m + 1
    rw [wrap64_of_inInt64 _ ⟨by omega, by omega⟩]
    omega

/-- One operation keeps, for the record under `k`, `0 ≤ ErrorCount ≤ RunCount ≤ m`, where
`m` goes up by one with a fire of `k` and stays below `2^63`. -/
theorem step_bound (eng : Engine E) (k : EntryID) (s : Scheduler E) (op : Op E) (m : Int)
    (hm0 : 0 ≤ m) (hm : m + (firesOf k [op]).length < 9223372036854775808)
    (h : ∀ r, GetTaskInfo s k = some r →
      0 ≤ r.ErrorCount ∧ r.ErrorCount ≤ r.RunCount ∧ r.RunCount ≤ m) :
    ∀ r', GetTaskInfo (step eng s op) k = some r' →
      0 ≤ r'.ErrorCount ∧ r'.ErrorCount ≤ r'.RunCount ∧
      r'.RunCount ≤ m + (firesOf k [op]).length := by
  intro r' h'
  cases op with
  | add spec t =>
    have h'' : GetTaskInfo (AddTask eng s spec t).2 k = some r' := h'
    simp only [firesOf, List.length_nil, Nat.cast_zero, add_zero]
    rcases addTask_cases eng s spec t with ⟨err, _, hA⟩ | ⟨_, hA⟩
    · rw [hA] at h''
      exact h r' h''
    · rw [hA] at h''
      by_cases hk : k = (eng.AddFunc s.cron spec).1.1
      · rw [hk] at h''
        simp only [GetTaskInfo, AList.lookup_insert, Option.some.injEq] at h''
        rw [← h'']
        exact ⟨le_refl _, le_refl _, hm0⟩
      · simp only [GetTaskInfo, AList.lookup_insert_ne hk] at h''
        exact h r' h''
  | remove id =>
    simp only [firesOf, List.length_nil, Nat.cast_zero, add_zero]
    by_cases hk : k = id
    · subst hk
      simp [step, GetTaskInfo, RemoveTask, AList.lookup_erase] at h'
    · have : GetTaskInfo s k = some r' := by
        simpa [step, GetTaskInfo, RemoveTask, AList.lookup_erase_ne hk] using h'
      exact h r' this
  | fire taskID t inp =>
    have h'' : GetTaskInfo (fire eng s taskID t inp).1 k = some r' := h'
    by_cases hk : taskID = k
    · subst hk
      have hf : firesOf taskID [Op.fire taskID t inp (E := E)] = [inp] := by simp [firesOf]
      rw [hf] at hm ⊢
      simp only [List.length_singleton, Nat.cast_one] at hm ⊢
      cases h0 : GetTaskInfo s taskID with
      | none =>
        have := fire_tasks_of_none eng s taskID t inp h0
        unfold GetTaskInfo at h'' h0
        rw [this, h0] at h''
        exact absurd h'' (by simp)
      | some r =>
        rw [fire_lookup_self eng s taskID t inp r h0] at h''
        simp only [Option.some.injEq] at h''
        rw [← h'']
        exact started_finished_bound r _ _ _ m hm (h r h0)
    · have hf : firesOf k [Op.fire taskID t inp (E := E)] = [] := by simp [firesOf, hk]
      rw [hf]
      simp only [List.length_nil, Nat.cast_zero, add_zero]
      rw [fire_lookup_ne eng s taskID t inp k (fun e => hk e.symm)] at h''
      exact h r' h''
  | getAll =>
    simp only [firesOf, List.length_nil, Nat.cast_zero, add_zero]
    have h'' : GetTaskInfo (GetAllTasks eng s).2 k = some r' := h'
    simp only [GetTaskInfo, GetAllTasks, Registry.lookup_mapValues] at h''
    cases h0 : s.tasks.lookup k with
    | none => rw [h0] at h''; simp at h''
    | some r =>
      rw [h0] at h''
      simp only [Option.map_some', Option.some.injEq] at h''
      rw [← h'']
      exact h r h0
  | engine c =>
    simp only [firesOf, List.length_nil, Nat.cast_zero, add_zero]
    exact h r' h'

theorem run_bound (eng : Engine E) (k : EntryID) :
    ∀ (ops : List (Op E)) (s : Scheduler E) (m : Int), 0 ≤ m →
      m + (firesOf k ops).length < 9223372036854775808 →
      (∀ r, GetTaskInfo s k = some r →
        0 ≤ r.ErrorCount ∧ r.ErrorCount ≤ r.RunCount ∧ r.RunCount ≤ m) →
      ∀ r', GetTaskInfo (run eng s ops) k = some r' →
        0 ≤ r'.ErrorCount ∧ r'.ErrorCount ≤ r'.RunCount ∧
        r'.RunCount ≤ m + (firesOf k ops).length := by
  intro ops
  induction ops with
  | nil =>
    intro s m _ _ h r' h'
    simpa [firesOf] using h r' h'
  | cons op ops ih =>
    intro s m hm0 hm h r' h'
    rw [firesOf_cons, List.length_append] at hm ⊢
    push_cast at hm ⊢
    have hstep := step_bound eng k s op m hm0 (by omega) h
    have := ih (step eng s op) (m + (firesOf k [op]).length) (by omega) (by omega) hstep r' h'
    omega

/-- C10, amended: a fire of a registered handle whose `Run` returns nil adds one to
`RunCount`, with `int64` wrap-around (so exactly one unless `RunCount` is the largest
`int64`), leaves `ErrorCount` and `LastError` as they were (an earlier error stays) and
leaves the record under every other handle as it was; and a record of a state reached
from a new scheduler by completed operations with fewer than `2^63` fires of its handle
has `0 ≤ ErrorCount ≤ RunCount`. -/
theorem successful_fire_counts (eng : Engine E) :
    (∀ (s : Scheduler E) (taskID : EntryID) (task : Task) (inp : FireInput) (r : TaskInfo),
      GetTaskInfo s taskID = some r →
      task.Run (runCtx s.opts task) inp.world = none →
      (∃ r', GetTaskInfo (fire eng s taskID task inp).1 taskID = some r' ∧
        r'.RunCount = wrap64 (r.RunCount + 1) ∧
        (InInt64 r.RunCount → r.RunCount ≠ 9223372036854775807 →
          r'.RunCount = r.RunCount + 1) ∧
        r'.ErrorCount = r.ErrorCount ∧ r'.LastError = r.LastError) ∧
      ∀ k, k ≠ taskID → GetTaskInfo (fire eng s taskID task inp).1 k = GetTaskInfo s k) ∧
    (∀ (opts : Option Options) (ops : List (Op E)) (k : EntryID) (r : TaskInfo),
      GetTaskInfo (run eng (NewScheduler eng opts) ops) k = some r →
      ((firesOf k ops).length : Int) < 9223372036854775808 →
      0 ≤ r.ErrorCount ∧ r.ErrorCount ≤ r.RunCount) := by
  constructor
  · intro s taskID task inp r h hrun
    have hrc : ((r.started inp.startTime).finished (eng.EntryNext s.cron taskID)
        (task.Run (runCtx s.opts task) inp.world)).RunCount = wrap64 (r.RunCount + 1) := by
      rw [finished_RunCount]; rfl
    refine ⟨⟨_, fire_lookup_self eng s taskID task inp r h, hrc, ?_, ?_, ?_⟩, ?_⟩
    · intro hin hne
      rw [hrc]
      unfold InInt64 at hin
      exact wrap64_of_inInt64 _ ⟨by omega, by omega⟩
    · rw [hrun]; rfl
    · rw [hrun]; rfl
    · intro k hk
      exact fire_lookup_ne eng s taskID task inp k hk
  · intro opts ops k r h hN
    have := run_bound eng k ops (NewScheduler eng opts) 0 (le_refl _) (by omega)
      (by
        intro r0 h0
        simp [GetTaskInfo, NewScheduler, AList.lookup_empty] at h0) r h
    exact ⟨this.1, this.2.1⟩

theorem successful_fire_counts_witness :
    GetTaskInfo
      (run refEngine tracedScheduler
        [Op.add "* * * * * *" flakyTask, Op.fire 1 flakyTask (sampleInput 1)]) 1
      = some { ID := 1, Name := "anonymous", Spec := "* * * * * *", Task := flakyTask,
               LastRun := 100, NextRun := 660, RunCount := 1, ErrorCount := 1,
               LastError := some "odd" } ∧
    flakyTask.Run
      (runCtx (run refEngine tracedScheduler
        [Op.add "* * * * * *" flakyTask, Op.fire 1 flakyTask (sampleInput 1)]).opts
        flakyTask) (sampleInput 2).world = none ∧
    (∃ r', GetTaskInfo
        (fire refEngine
          (run refEngine tracedScheduler
            [Op.add "* * * * * *" flakyTask, Op.fire 1 flakyTask (sampleInput 1)])
          1 flakyTask (sampleInput 2)).1 1 = some r' ∧
      r'.RunCount = 1 + 1 ∧ r'.ErrorCount = 1 ∧ r'.LastError = some "odd") ∧
    (∀ r, GetTaskInfo
        (run refEngine (NewScheduler refEngine none)
          [Op.add "* * * * * *" flakyTask, Op.fire 1 flakyTask (sampleInput 1)]) 1
        = some r → 0 ≤ r.ErrorCount ∧ r.ErrorCount ≤ r.RunCount) := by
  obtain ⟨⟨r', h1, _, h3, h4, h5⟩, _⟩ :=
    (successful_fire_counts refEngine).1
      (run refEngine tracedScheduler
        [Op.add "* * * * * *" flakyTask, Op.fire 1 flakyTask (sampleInput 1)])
      1 flakyTask (sampleInput 2)
      { ID := 1, Name := "anonymous", Spec := "* * * * * *", Task := flakyTask,
        LastRun := 100, NextRun := 660, RunCount := 1, ErrorCount := 1,
        LastError := some "odd" } rfl rfl
  exact ⟨rfl, rfl, ⟨r', h1, h3 (by decide) (by decide), h4, h5⟩,
    fun r h => (successful_fire_counts refEngine).2 none _ 1 r h (by decide)⟩

theorem flaky_run_counts (n : Nat) :
    ∃ r, GetTaskInfo
        (run refEngine plainScheduler
          (Op.add "* * * * * *" flakyTask :: Op.fire 1 flakyTask (sampleInput 1) ::
            List.replicate n (Op.fire 1 flakyTask (sampleInput 0)))) 1 = some r ∧
      r.RunCount = wrap64 ((n : Int) + 1) ∧ r.ErrorCount = 1 := by
  obtain ⟨_, hrec, _⟩ :=
    addTask_ok_record refEngine plainScheduler "* * * * * *" flakyTask 1 rfl
  obtain ⟨r, h, hrc, hec, _⟩ :=
    run_counts refEngine 1 flakyTask
      (Op.fire 1 flakyTask (sampleInput 1) ::
        List.replicate n (Op.fire 1 flakyTask (sampleInput 0)))
      (AddTask refEngine plainScheduler "* * * * * *" flakyTask).2 _ 0 0
      ⟨fun _ => rfl, keeps_replicate_fire refEngine 1 flakyTask (sampleInput 0) _ _⟩ hrec
      wrap64_zero.symm wrap64_zero.symm
  rw [firesOf_cons, firesOf_replicate_fire] at hrc hec
  have hf : firesOf 1 [Op.fire 1 flakyTask (sampleInput 1) (E := RefCron)]
      = [sampleInput 1] := by simp [firesOf]
  rw [hf] at hrc hec
  refine ⟨r, h, ?_, ?_⟩
  · rw [hrc]; congr 1; simp
  · rw [hec]
    have : failed (AddTask refEngine plainScheduler "* * * * * *" flakyTask).2.opts
        flakyTask ([sampleInput 1] ++ List.replicate n (sampleInput 0))
        = [sampleInput 1] := by
      simp [failed, flakyTask, TaskFunc, sampleInput]
    rw [this]
    decide

/-- C10, as stated, fails once `RunCount` has reached the largest `int64`: the next
successful fire takes it to `-2^63`, not one higher, and then `ErrorCount = 1` is above
`RunCount`. The state is the one after a registration, one failed fire and `2^63 - 2`
successful ones. -/
theorem successful_fire_wraps :
    ∃ r r', GetTaskInfo
        (run refEngine plainScheduler
          (Op.add "* * * * * *" flakyTask :: Op.fire 1 flakyTask (sampleInput 1) ::
            List.replicate 9223372036854775806 (Op.fire 1 flakyTask (sampleInput 0)))) 1
        = some r ∧
      flakyTask.Run (runCtx plainScheduler.opts flakyTask) (sampleInput 0).world = none ∧
      GetTaskInfo
        (fire refEngine
          (run refEngine plainScheduler
            (Op.add "* * * * * *" flakyTask :: Op.fire 1 flakyTask (sampleInput 1) ::
              List.replicate 9223372036854775806 (Op.fire 1 flakyTask (sampleInput 0))))
          1 flakyTask (sampleInput 0)).1 1 = some r' ∧
      r.RunCount = 9223372036854775807 ∧
      r'.RunCount = -9223372036854775808 ∧ r'.RunCount ≠ r.RunCount + 1 ∧
      r'.ErrorCount = 1 ∧ ¬ r'.ErrorCount ≤ r'.RunCount := by
  obtain ⟨r, h, hrc, hec⟩ := flaky_run_counts 9223372036854775806
  have hw : wrap64 (((9223372036854775806 : Nat) : Int) + 1) = 9223372036854775807 := by
    rw [Nat.cast_ofNat]; decide
  rw [hw] at hrc
  have h' := fire_lookup_self refEngine _ 1 flakyTask (sampleInput 0) r h
  rw [run_opts] at h'
  have hrun : flakyTask.Run (runCtx plainScheduler.opts flakyTask) (sampleInput 0).world
      = none := rfl
  rw [hrun] at h'
  have hrc' : ∀ next, ((r.started (sampleInput 0).startTime).finished next none).RunCount
      = -9223372036854775808 := by
    intro next
    show wrap64 (r.RunCount + 1) = _
    rw [hrc]; decide
  have hec' : ∀ next, ((r.started (sampleInput 0).startTime).finished next none).ErrorCount
      = 1 := fun _ => hec
  refine ⟨r, _, h, hrun, h', hrc, hrc' _, ?_, hec' _, ?_⟩
  · rw [hrc' _, hrc]; decide
  · rw [hrc' _, hec' _]; decide

/-! ## Config.ToOptions -/

theorem toOptions_nil (loadLocation : String → Except GoError Location) :
    ToOptions loadLocation none = .returned (.error "cron config cannot be nil") := rfl

theorem toOptions_disabled (loadLocation : String → Except GoError Location)
    (cfg : Config) (h : cfg.Enabled = false) :
    ToOptions loadLocation (some cfg) = .returned (.error "cron is not enabled") := by
  simp [ToOptions, Validate, h]

theorem toOptions_local (loadLocation : String → Except GoError Location)
    (cfg : Config) (h : cfg.Enabled = true)
    (hl : cfg.Location = "" ∨ cfg.Location = "Local") :
    ToOptions loadLocation (some cfg)
      = .returned (.ok { Location := timeLocal, EnableTrace := cfg.EnableTrace }) := by
  rcases hl with hl | hl <;> simp [ToOptions, Validate, h, hl]

theorem toOptions_lookup (loadLocation : String → Except GoError Location)
    (cfg : Config) (h : cfg.Enabled = true)
    (h1 : cfg.Location ≠ "") (h2 : cfg.Location ≠ "Local") :
    ToOptions loadLocation (some cfg)
      = match loadLocation cfg.Location with
        | .error err => .returned (.error ("invalid location: " ++ err))
        | .ok location =>
          .returned (.ok { Location := location, EnableTrace := cfg.EnableTrace }) := by
  simp [ToOptions, Validate, h, h1, h2]

/-- C8: `ToOptions` returns an error exactly when the config is nil, or not enabled, or
names a location other than "" and "Local" whose lookup fails; otherwise it returns
options with the config's `EnableTrace` and with the local zone (for "" and "Local") or
the looked-up zone. It never panics: the nil receiver is rejected by `Validate` before a
field is read. -/
theorem toOptions_error_iff (loadLocation : String → Except GoError Location)
    (c : Option Config) :
    ((∃ err, ToOptions loadLocation c = .returned (.error err)) ↔
      (c = none ∨ ∃ cfg, c = some cfg ∧
        (cfg.Enabled = false ∨
          (cfg.Location ≠ "" ∧ cfg.Location ≠ "Local" ∧
            ∃ e, loadLocation cfg.Location = .error e)))) ∧
    (∀ cfg, c = some cfg → cfg.Enabled = true →
      ((cfg.Location = "" ∨ cfg.Location = "Local") →
        ToOptions loadLocation c
          = .returned (.ok { Location := timeLocal, EnableTrace := cfg.EnableTrace })) ∧
      (∀ loc, cfg.Location ≠ "" → cfg.Location ≠ "Local" →
        loadLocation cfg.Location = .ok loc →
        ToOptions loadLocation c
          = .returned (.ok { Location := loc, EnableTrace := cfg.EnableTrace }))) ∧
    ToOptions loadLocation c ≠ .panic := by
  cases c with
  | none =>
    refine ⟨⟨fun _ => Or.inl rfl, fun _ => ⟨_, toOptions_nil loadLocation⟩⟩, ?_, ?_⟩
    · intro cfg h
      cases h
    · rw [toOptions_nil]
      intro h; cases h
  | some cfg =>
    cases hen : cfg.Enabled with
    | false =>
      refine ⟨⟨fun _ => Or.inr ⟨cfg, rfl, Or.inl hen⟩,
        fun _ => ⟨_, toOptions_disabled loadLocation cfg hen⟩⟩, ?_, ?_⟩
      · intro cfg' h hen'
        cases h
        rw [hen] at hen'
        cases hen'
      · rw [toOptions_disabled loadLocation cfg hen]
        intro h; cases h
    | true =>
      by_cases hl : cfg.Location = "" ∨ cfg.Location = "Local"
      · have hT := toOptions_local loadLocation cfg hen hl
        refine ⟨⟨?_, ?_⟩, ?_, ?_⟩
        · rintro ⟨err, herr⟩
          rw [hT] at herr
          cases herr
        · rintro (h | ⟨cfg', h, h' | ⟨h1, h2, _⟩⟩)
          · cases h
          · cases h
            rw [hen] at h'
            cases h'
          · cases h
            rcases hl with hl | hl
            · exact absurd hl h1
            · exact absurd hl h2
        · intro cfg' h _
          cases h
          refine ⟨fun _ => hT, ?_⟩
          intro loc h1 h2 _
          rcases hl with hl | hl
          · exact absurd hl h1
          · exact absurd hl h2
        · rw [hT]
          intro h; cases h
      · have h1 : cfg.Location ≠ "" := fun h => hl (Or.inl h)
        have h2 : cfg.Location ≠ "Local" := fun h => hl (Or.inr h)
        have hT := toOptions_lookup loadLocation cfg hen h1 h2
        cases hload : loadLocation cfg.Location with
        | error e =>
          rw [hload] at hT
          refine ⟨⟨fun _ => Or.inr ⟨cfg, rfl, Or.inr ⟨h1, h2, e, hload⟩⟩,
            fun _ => ⟨_, hT⟩⟩, ?_, ?_⟩
          · intro cfg' h _
            cases h
            refine ⟨fun h' => absurd h' hl, ?_⟩
            intro loc _ _ h'
            rw [hload] at h'
            cases h'
          · rw [hT]
            intro h; cases h
        | ok loc =>
          rw [hload] at hT
          refine ⟨⟨?_, ?_⟩, ?_, ?_⟩
          · rintro ⟨err, herr⟩
            rw [hT] at herr
            cases herr
          · rintro (h | ⟨cfg', h, h' | ⟨_, _, e, he⟩⟩)
            · cases h
            · cases h
              rw [hen] at h'
              cases h'
            · cases h
              rw [hload] at he
              cases he
          · intro cfg' h _
            cases h
            refine ⟨fun h' => absurd h' hl, ?_⟩
            intro loc' _ _ h'
            rw [hload] at h'
            cases h'
            exact hT
          · rw [hT]
            intro h; cases h

theorem toOptions_error_iff_witness :
    ((∃ err, ToOptions sampleLoadLocation (some ⟨true, "Mars/Olympus", true⟩)
        = .returned (.error err)) ↔
      ((some ⟨true, "Mars/Olympus", true⟩ : Option Config) = none ∨
        ∃ cfg, (some ⟨true, "Mars/Olympus", true⟩ : Option Config) = some cfg ∧
          (cfg.Enabled = false ∨
            (cfg.Location ≠ "" ∧ cfg.Location ≠ "Local" ∧
              ∃ e, sampleLoadLocation cfg.Location = .error e)))) ∧
    ToOptions sampleLoadLocation (some ⟨true, "Mars/Olympus", true⟩)
      = .returned (.error "invalid location: unknown time zone Mars/Olympus") ∧
    ToOptions sampleLoadLocation none
      = .returned (.error "cron config cannot be nil") ∧
    ToOptions sampleLoadLocation (some ⟨true, "UTC", false⟩)
      = .returned (.ok { Location := ⟨"UTC"⟩, EnableTrace := false }) ∧
    ToOptions sampleLoadLocation (some ⟨true, "", true⟩)
      = .returned (.ok { Location := timeLocal, EnableTrace := true }) :=
  ⟨(toOptions_error_iff sampleLoadLocation (some ⟨true, "Mars/Olympus", true⟩)).1,
   rfl, rfl,
   ((toOptions_error_iff sampleLoadLocation (some ⟨true, "UTC", false⟩)).2.1
      ⟨true, "UTC", false⟩ rfl rfl).2 ⟨"UTC"⟩ (by decide) (by decide) rfl,
   ((toOptions_error_iff sampleLoadLocation (some ⟨true, "", true⟩)).2.1
      ⟨true, "", true⟩ rfl rfl).1 (Or.inl rfl)⟩

/-! ## The counters stay in the range of `int64` -/

theorem wrap64_inInt64 (x : Int) : InInt64 (wrap64 x) := by
  unfold InInt64 wrap64
  omega

/-- In every reachable state the counters of every record are values of an `int64`. -/
theorem reachable_counters_inInt64 (eng : Engine E) (s : Scheduler E)
    (hs : Reachable eng s) :
    ∀ k r, GetTaskInfo s k = some r → InInt64 r.RunCount ∧ InInt64 r.ErrorCount := by
  refine reachable_records eng (fun _ r => InInt64 r.RunCount ∧ InInt64 r.ErrorCount)
    ?_ ?_ ?_ s hs
  · intro id name spec task next
    exact ⟨(by decide : InInt64 0), (by decide : InInt64 0)⟩
  · intro k r st next err h
    refine ⟨?_, ?_⟩
    · show InInt64 ((r.started st).finished next err).RunCount
      rw [finished_RunCount]
      exact wrap64_inInt64 _
    · cases err with
      | none => exact h.2
      | some e => exact wrap64_inInt64 _
  · intro k r next h
    exact h

end Cron
